import Mathlib

/-
Verification of the asynchronous task scheduler specification (spec.md) of the
pcs repository.

The scheduler implementation (pcs/daemon/async_tasks/{scheduler,task}.py and
pcs/daemon/async_tasks/worker/executor.py) is not present under src/; only its
integration tests (src/pcs_test/tier0/daemon/async_tasks/test_integration.py)
are.  The definitions below are therefore modelled from the spec, and wherever
the repository's own tests pin down a behaviour that the spec's words
contradict, the tests win; each such decision is recorded in the doc comment of
the definition concerned.  The two deviations from the spec's words forced by
the tests are:

  * the order of the tick: tasks are scheduled (CREATED -> QUEUED) before the
    message queue is drained.  DeadlockTests.test_deadlock_mitigation emits a
    TaskExecuted message for a task that is still CREATED and expects the task
    to be EXECUTED after a single tick; since a TaskExecuted message for a task
    not in QUEUED is discarded (spec section 4.1), the message can only have
    been applied after the scheduling step.

  * the abandoned-timeout rule of garbage collection: the spec (section 4.4,
    step 3) removes any non-terminal task whose age exceeds
    task_abandoned_timeout, but the tests
    (GarbageCollectionTimeoutTests.test_created_abandoned_timeout,
    test_scheduled_abandoned_timeout, test_executed_abandoned_timeout) assert
    that CREATED, QUEUED and EXECUTED tasks survive that timeout unchanged,
    while test_finished_abandoned_timeout and test_finished_defunct_timeout
    assert that a FINISHED task whose last worker message is older than the
    timeout is removed.  The model therefore treats only FINISHED tasks as
    abandoned, measured from the last message timestamp.
-/

namespace AsyncTasks

/-- Modelled from the spec: task lifecycle states (spec section 3,
`pcs.common.async_tasks.types.TaskState`). -/
inductive TaskState
  | created
  | queued
  | executed
  | finished
deriving DecidableEq, Repr

/-- Modelled from the spec: task finish types
(`pcs.common.async_tasks.types.TaskFinishType`). -/
inductive TaskFinishType
  | unfinished
  | success
  | fail
  | unhandledException
  | kill
deriving DecidableEq, Repr

/-- Modelled from the spec: task kill reasons
(`pcs.common.async_tasks.types.TaskKillReason`). -/
inductive TaskKillReason
  | user
  | completionTimeout
  | internalMessagingError
deriving DecidableEq, Repr

/-- Modelled from the spec: payloads of worker-to-scheduler messages
(spec section 6, `pcs.daemon.async_tasks.worker.types`). -/
inductive Payload
  | taskExecuted (workerPid : Nat)
  | taskFinished (finishType : TaskFinishType) (result : Option String)
  | taskReport (report : String)
deriving DecidableEq, Repr

/-- Modelled from the spec: a worker message wrapped with the ident of the task
it concerns (`Message(ident, payload)`). -/
structure Message where
  taskIdent : String
  payload : Payload
deriving DecidableEq, Repr

/-- Process signals with semantic meaning in the scheduler (spec section 6).
SIGSTOP is sent by a worker to itself and never by the scheduler, so it does
not appear in the scheduler model. -/
inductive Sig
  | sigkill
  | sigcont
deriving DecidableEq, Repr

/-- A process signal sent by the scheduler, tagged with the ident of the task
on whose behalf it was sent, so that theorems can speak about the signals
concerning one task. -/
structure SentSignal where
  taskIdent : String
  pid : Nat
  sig : Sig
deriving DecidableEq, Repr

/-- Modelled from the spec: the task record (spec section 3,
`pcs.daemon.async_tasks.task.Task`).  `killReason` doubles as the pending-kill
flag: a kill is requested exactly when `killReason` is set, matching the spec's
"pending kill" glossary entry and the `kill_task`/GC interplay of section 4.4.
Timestamps are wall-clock seconds; `lastMessageTs = none` is the sentinel
"never". -/
structure Task where
  ident : String
  commandName : String
  state : TaskState
  finishType : TaskFinishType
  killReason : Option TaskKillReason
  result : Option String
  reports : List String
  workerPid : Option Nat
  createdTs : Nat
  lastMessageTs : Option Nat
  toDeleteTs : Option Nat
deriving DecidableEq, Repr

/-- Modelled from the spec: a fresh task record as built by `new_task`
(spec section 4.6). -/
def Task.new (ident commandName : String) (now : Nat) : Task :=
  { ident := ident
    commandName := commandName
    state := .created
    finishType := .unfinished
    killReason := none
    result := none
    reports := []
    workerPid := none
    createdTs := now
    lastMessageTs := none
    toDeleteTs := none }

/-- Modelled from the spec: `now - since > timeout` on an optional timestamp;
a task that never received a message is not timed out. -/
def timedOut (since : Option Nat) (timeout now : Nat) : Bool :=
  match since with
  | none => false
  | some s => s + timeout < now

/-- Has the optional deletion timestamp passed? -/
def toDeleteElapsed (toDeleteTs : Option Nat) (now : Nat) : Bool :=
  match toDeleteTs with
  | none => false
  | some d => d ≤ now

/-- Modelled from the spec: the scheduler configuration (spec section 4.7).
`workerCount` is the size of the persistent pool; `maxWorkerCount` is the cap
on the total number of live workers, persistent plus temporary (the tests
manipulate a config field of that name: DeadlockTests.test_max_worker_count_reached
sets `max_worker_count = 1` and expects no temporary worker although the
deadlock heuristic fires, so in the code the field caps the total). -/
structure Config where
  workerCount : Nat
  maxWorkerCount : Nat
  deadlockThresholdTimeout : Nat
  taskUnresponsiveTimeout : Nat
  taskAbandonedTimeout : Nat
  deleteAfterTerminal : Nat
deriving DecidableEq, Repr

/-- Modelled from the spec: the handle of a temporary worker spawned for
deadlock mitigation (spec section 4.5).  `boundToPoolQueues` records that the
process was created on the pool's inbound/outbound queues (the `mp.Process`
args tuple of the test); `initialTaskCounter` is the `maxtasks` counter, 1 for
temporary workers. -/
structure TmpWorker where
  wid : Nat
  initialTaskCounter : Nat
  boundToPoolQueues : Bool
deriving DecidableEq, Repr

/-- Modelled from the spec: the scheduler state
(`pcs.daemon.async_tasks.scheduler.Scheduler`).  `taskRegister` is kept in
submission order; `lastMessageAt` is the wall clock of the last drained
message, used by the deadlock heuristic ("no progress message has been
received"). -/
structure Scheduler where
  taskRegister : List Task
  config : Config
  tmpWorkers : List TmpWorker
  nextTmpWorkerId : Nat
  lastMessageAt : Nat
deriving DecidableEq, Repr

/-- A scheduler as built at daemon start: empty register, no temporary
workers. -/
def newScheduler (cfg : Config) : Scheduler :=
  { taskRegister := [], config := cfg, tmpWorkers := [], nextTmpWorkerId := 0,
    lastMessageAt := 0 }

/-- Modelled from the spec: errors raised by the public API
(`pcs.daemon.async_tasks.scheduler.TaskNotFoundError`). -/
inductive SchedulerError
  | taskNotFound (ident : String)
deriving DecidableEq, Repr

deriving instance DecidableEq for Except

/-- Look a task up in the register by ident. -/
def findTask (s : Scheduler) (ident : String) : Option Task :=
  s.taskRegister.find? (fun t => t.ident == ident)

/-- Modelled from the spec: `new_task` (spec section 4.6) appends a fresh
`CREATED` record; dispatch happens on the next tick.  The eager
`CommandNotRegistered` check is outside the claims and is not modelled. -/
def new_task (s : Scheduler) (ident commandName : String) (now : Nat) :
    Scheduler :=
  { s with taskRegister := s.taskRegister ++ [Task.new ident commandName now] }

/-- Modelled from the spec: the read-only task snapshot DTO
(spec section 6, `TaskResult`). -/
structure TaskInfo where
  taskIdent : String
  state : TaskState
  taskFinishType : TaskFinishType
  killReason : Option TaskKillReason
  result : Option String
  reports : List String
deriving DecidableEq, Repr

/-- The snapshot of a task record. -/
def Task.toInfo (t : Task) : TaskInfo :=
  { taskIdent := t.ident
    state := t.state
    taskFinishType := t.finishType
    killReason := t.killReason
    result := t.result
    reports := t.reports }

/-- Modelled from the spec: `get_task` (spec section 4.6).  Returns a read-only
snapshot, raises `TaskNotFound` when the ident is absent, and as its only side
effect the first call on a `FINISHED` task arms garbage collection by setting
`to_delete_timestamp = now + delete_after_terminal`. -/
def get_task (s : Scheduler) (ident : String) (now : Nat) :
    Except SchedulerError (TaskInfo × Scheduler) :=
  match findTask s ident with
  | none => .error (.taskNotFound ident)
  | some t =>
      if t.state == .finished && t.toDeleteTs == none then
        .ok (t.toInfo,
          { s with taskRegister := s.taskRegister.map (fun u =>
              if u.ident == ident then
                { u with toDeleteTs := some (now + s.config.deleteAfterTerminal) }
              else u) })
      else .ok (t.toInfo, s)

/-- Modelled from the spec: `kill_task` (spec section 4.6).  Sets the pending
kill: `killReason := USER`.  On a terminal task this records the reason without
altering the finish type; otherwise the control loop effects the kill once a
pid exists.  No signal is sent here. -/
def kill_task (s : Scheduler) (ident : String) :
    Except SchedulerError Scheduler :=
  match findTask s ident with
  | none => .error (.taskNotFound ident)
  | some _ =>
      .ok { s with taskRegister := s.taskRegister.map (fun u =>
          if u.ident == ident then { u with killReason := some .user } else u) }

/-- Modelled from the spec: the scheduling step of the tick for one task
(spec section 4.4 step "Schedule created tasks").  A `CREATED` task with a
pending kill is finished as killed without ever being submitted — no pid
exists, so no signal is sent (test_kill_created) — any other `CREATED` task is
submitted to the pool and becomes `QUEUED`.  The pool's inbound queue never
refuses a submission in the tests, so submission always succeeds in the
model. -/
def scheduleTask (t : Task) : Task :=
  if t.state == .created then
    if t.killReason.isSome then { t with state := .finished, finishType := .kill }
    else { t with state := .queued }
  else t

/-- Modelled from the spec: application of one worker message to its task
(spec section 4.1).  `TaskExecuted` is honoured only in `QUEUED`, `TaskFinished`
only in `EXECUTED` (otherwise the message is logged and discarded); reports are
attached in any state (late reports are attached, spec section 9, note b).
Processing a terminal `TaskFinished` resumes the worker with SIGCONT
(spec section 4.4 step 5; the tests observe this signal when the finish message
is drained). -/
def applyPayload (now : Nat) (p : Payload) (t : Task) :
    Task × List SentSignal :=
  match p with
  | .taskExecuted pid =>
      if t.state == .queued then
        ({ t with state := .executed, workerPid := some pid,
                  lastMessageTs := some now }, [])
      else (t, [])
  | .taskFinished ft res =>
      if t.state == .executed then
        ({ t with state := .finished, finishType := ft, result := res,
                  lastMessageTs := some now },
         match t.workerPid with
         | some pid => [⟨t.ident, pid, .sigcont⟩]
         | none => [])
      else (t, [])
  | .taskReport r =>
      ({ t with reports := t.reports ++ [r], lastMessageTs := some now }, [])

/-- Drain the message queue onto one task: apply, in order, every message whose
ident matches. -/
def applyMessages (now : Nat) (msgs : List Message) (t : Task) :
    Task × List SentSignal :=
  match msgs with
  | [] => (t, [])
  | m :: rest =>
      if m.taskIdent == t.ident then
        ((applyMessages now rest (applyPayload now m.payload t).1).1,
          (applyPayload now m.payload t).2 ++
            (applyMessages now rest (applyPayload now m.payload t).1).2)
      else applyMessages now rest t

/-- Modelled from the spec: `is_defunct` (spec section 3) — true iff the task
is `EXECUTED` and silent for longer than `task_unresponsive_timeout`. -/
def Task.is_defunct (t : Task) (cfg : Config) (now : Nat) : Bool :=
  t.state == .executed && timedOut t.lastMessageTs cfg.taskUnresponsiveTimeout now

/-- Modelled from the spec and the tests: a task is abandoned (eligible for
removal) iff it is `FINISHED` and either its armed deletion timestamp has
passed or its last message is older than `task_abandoned_timeout`.  The spec's
section 4.4 also removes non-terminal tasks past the abandoned timeout, but the
repository's tests assert the opposite (see the header comment), so only
`FINISHED` tasks are removed. -/
def Task.is_abandoned (t : Task) (cfg : Config) (now : Nat) : Bool :=
  t.state == .finished &&
    (toDeleteElapsed t.toDeleteTs now ||
      timedOut t.lastMessageTs cfg.taskAbandonedTimeout now)

/-- Request a `COMPLETION_TIMEOUT` kill on a defunct task (spec section 4.4
step 3, second bullet). -/
def requestKillIfDefunct (cfg : Config) (now : Nat) (t : Task) : Task :=
  if t.is_defunct cfg now then { t with killReason := some .completionTimeout }
  else t

/-- Kill an `EXECUTED` task whose kill is pending: SIGKILL to the recorded
worker pid and transition to `FINISHED(KILL)`. -/
def killPending (t : Task) : Task × List SentSignal :=
  if t.state == .executed && t.killReason.isSome then
    ({ t with state := .finished, finishType := .kill },
      match t.workerPid with
      | some pid => [⟨t.ident, pid, .sigkill⟩]
      | none => [])
  else (t, [])

/-- Modelled from the spec: the garbage-collection step of the tick for one
task (spec section 4.4 step 3).  An abandoned task is removed; a defunct task
gets a `COMPLETION_TIMEOUT` kill requested; an `EXECUTED` task with a pending
kill is killed: SIGKILL to its worker pid and transition to
`FINISHED(KILL)` with the recorded kill reason.  A pending kill on a `QUEUED`
task waits for a pid; on a `FINISHED` task it changes nothing further. -/
def gcTask (cfg : Config) (now : Nat) (t : Task) :
    Option (Task × List SentSignal) :=
  if t.is_abandoned cfg now then none
  else some (killPending (requestKillIfDefunct cfg now t))

/-- One tick of the control loop restricted to one task: schedule, drain the
messages concerning it, garbage-collect.  Returns the surviving record (if
any) and the signals sent on the task's behalf. -/
def tickTask (cfg : Config) (now : Nat) (msgs : List Message) (t : Task) :
    Option Task × List SentSignal :=
  match gcTask cfg now (applyMessages now msgs (scheduleTask t)).1 with
  | none => (none, (applyMessages now msgs (scheduleTask t)).2)
  | some (t3, sigs2) =>
      (some t3, (applyMessages now msgs (scheduleTask t)).2 ++ sigs2)

/-- Inputs of one tick: the injectable wall clock, the drained contents of the
worker message queue, and the set of temporary-worker ids whose process is
still alive. -/
structure TickInput where
  now : Nat
  messages : List Message
  aliveTmpWorkers : List Nat
deriving DecidableEq, Repr

/-- Observable outputs of one tick: the signals sent, the temporary workers
spawned, and the temporary-worker handles closed. -/
structure TickOutput where
  signals : List SentSignal
  spawnedTmpWorkers : List TmpWorker
  closedTmpWorkers : List TmpWorker
deriving DecidableEq, Repr

/-- Number of register entries in a given state. -/
def countState (r : List Task) (st : TaskState) : Nat :=
  (r.filter (fun t => t.state == st)).length

/-- Modelled from the spec: the deadlock heuristic (spec section 4.5) — every
persistent worker is executing, at least one task is still queued, and no
progress message has been received for at least the threshold. -/
def deadlockDetected (cfg : Config) (now lastMessageAt : Nat)
    (r : List Task) : Bool :=
  decide (cfg.workerCount ≤ countState r .executed) &&
  decide (0 < countState r .queued) &&
  decide (lastMessageAt + cfg.deadlockThresholdTimeout ≤ now)

/-- Modelled from the spec: `perform_actions`, the single coordination tick
(spec section 4.4).  Per task: schedule created tasks, drain the message queue,
garbage-collect (the scheduling step runs before the drain; see the header
comment).  Then temporary-worker management (spec section 4.5): handles of
temporary workers whose process is no longer alive are closed and forgotten,
and when the deadlock heuristic fires and the total worker count is below the
cap, exactly one temporary worker is spawned, bound to the pool queues with an
initial-task counter of 1. -/
def perform_actions (s : Scheduler) (inp : TickInput) :
    Scheduler × TickOutput :=
  let results := s.taskRegister.map (tickTask s.config inp.now inp.messages)
  let register := results.filterMap Prod.fst
  let signals := (results.map Prod.snd).flatten
  let keptTmp := s.tmpWorkers.filter (fun w => inp.aliveTmpWorkers.contains w.wid)
  let closed := s.tmpWorkers.filter (fun w => !inp.aliveTmpWorkers.contains w.wid)
  let lastMsgAt := if inp.messages.isEmpty then s.lastMessageAt else inp.now
  let doSpawn := deadlockDetected s.config inp.now lastMsgAt register &&
    decide (s.config.workerCount + keptTmp.length < s.config.maxWorkerCount)
  let spawned : List TmpWorker :=
    if doSpawn then [⟨s.nextTmpWorkerId, 1, true⟩] else []
  ({ s with
      taskRegister := register
      tmpWorkers := keptTmp ++ spawned
      nextTmpWorkerId := s.nextTmpWorkerId + (if doSpawn then 1 else 0)
      lastMessageAt := lastMsgAt },
   { signals := signals, spawnedTmpWorkers := spawned,
     closedTmpWorkers := closed })

/-- Run a sequence of ticks, collecting the outputs. -/
def runTicks (s : Scheduler) (inps : List TickInput) :
    Scheduler × List TickOutput :=
  match inps with
  | [] => (s, [])
  | inp :: rest =>
      let p := perform_actions s inp
      let q := runTicks p.1 rest
      (q.1, p.2 :: q.2)

/-- The signals concerning one task ident. -/
def signalsFor (ident : String) (sigs : List SentSignal) : List SentSignal :=
  sigs.filter (fun sg => sg.taskIdent == ident)

/-- The outcome of running a command handler inside a worker
(spec section 4.2): a normal return with a value, a declared library error, or
any other exception. -/
inductive HandlerOutcome
  | ok (value : Option String)
  | libError
  | unhandled
deriving DecidableEq, Repr

/-- Modelled from the spec: the worker executor
(`pcs.daemon.async_tasks.worker.executor.task_executor`, spec section 4.2).
It emits `TaskExecuted(pid)` before invoking the handler, forwards the
handler's reports, and always ends with exactly one `TaskFinished` message:
`SUCCESS` with the returned value on a normal return, `FAIL` with a null result
on a declared library error, `UNHANDLED_EXCEPTION` with a null result on any
other exception — no exception propagates out (the model is a total
function). -/
def task_executor (ident : String) (pid : Nat) (reports : List String)
    (outcome : HandlerOutcome) : List Message :=
  ⟨ident, .taskExecuted pid⟩ ::
    (reports.map (fun r => ⟨ident, .taskReport r⟩)) ++
    [match outcome with
      | .ok v => ⟨ident, .taskFinished .success v⟩
      | .libError => ⟨ident, .taskFinished .fail none⟩
      | .unhandled => ⟨ident, .taskFinished .unhandledException none⟩]

/-- Example configuration used by the concrete witnesses: one persistent
worker, cap of three workers in total, deadlock threshold 300 s, unresponsive
timeout 3600 s, abandoned timeout 60 s, deletion grace 1800 s. -/
def exCfg : Config := ⟨1, 3, 300, 3600, 60, 1800⟩

/-- Example queued task for witnesses. -/
def exTaskQueued : Task := { Task.new "id0" "cmd" 0 with state := .queued }

/-- Example executed task for witnesses (pid 5, last message at 0). -/
def exTaskExecuted : Task :=
  { Task.new "id0" "cmd" 0 with
    state := .executed
    workerPid := some 5
    lastMessageTs := some 0 }

/-- Example finished task for witnesses. -/
def exTaskFinished : Task :=
  { exTaskExecuted with
    state := .finished
    finishType := .success
    result := some "RESULT" }

/-- A one-task scheduler around an example task. -/
def exSched (t : Task) : Scheduler :=
  { taskRegister := [t], config := exCfg, tmpWorkers := [],
    nextTmpWorkerId := 0, lastMessageAt := 0 }

/-- The scheduler state of the C2 counterexample: one task driven to
`FINISHED(SUCCESS)` through the full pipeline, never observed by
`get_task`. -/
def c2state : Scheduler :=
  (perform_actions
    (perform_actions
      (perform_actions (new_task (newScheduler exCfg) "id0" "cmd" 0)
        ⟨0, [], []⟩).1
      ⟨0, [⟨"id0", .taskExecuted 5⟩], []⟩).1
    ⟨0, [⟨"id0", .taskFinished .success (some "RESULT")⟩], []⟩).1

/-- The scheduler of the C7 witness: deadlock threshold 0, one persistent
worker, cap 3, two fresh tasks, a `TaskExecuted` for one of them pending. -/
def dlSched : Scheduler :=
  new_task (new_task (newScheduler ⟨1, 3, 0, 3600, 60, 1800⟩) "id0" "cmd" 0)
    "id1" "cmd" 0

section Lemmas

/-- Scheduling preserves the task ident. -/
theorem scheduleTask_ident (t : Task) : (scheduleTask t).ident = t.ident := by
  unfold scheduleTask
  split <;> [skip; rfl]
  split <;> rfl

/-- Message application preserves the task ident. -/
theorem applyPayload_ident (now : Nat) (p : Payload) (t : Task) :
    (applyPayload now p t).1.ident = t.ident := by
  unfold applyPayload
  cases p <;> simp only [] <;> (try split) <;> rfl

/-- Draining messages preserves the task ident. -/
theorem applyMessages_ident (now : Nat) (msgs : List Message) (t : Task) :
    (applyMessages now msgs t).1.ident = t.ident := by
  induction msgs generalizing t with
  | nil => rfl
  | cons m rest ih =>
      unfold applyMessages
      split
      · simpa [applyPayload_ident] using ih (applyPayload now m.payload t).1
      · exact ih t

/-- Requesting a defunct kill preserves the task ident. -/
theorem requestKillIfDefunct_ident (cfg : Config) (now : Nat) (t : Task) :
    (requestKillIfDefunct cfg now t).ident = t.ident := by
  unfold requestKillIfDefunct
  split <;> rfl

/-- Killing a pending task preserves the task ident. -/
theorem killPending_ident (t : Task) : (killPending t).1.ident = t.ident := by
  unfold killPending
  split <;> rfl

/-- Garbage collection preserves the task ident of a surviving task. -/
theorem gcTask_ident (cfg : Config) (now : Nat) (t t' : Task)
    (sigs : List SentSignal) (h : gcTask cfg now t = some (t', sigs)) :
    t'.ident = t.ident := by
  unfold gcTask at h
  split at h
  · exact absurd h (by simp)
  · simp only [Option.some.injEq] at h
    have := congrArg Prod.fst h
    simp only [] at this
    rw [← this, killPending_ident, requestKillIfDefunct_ident]

/-- One tick preserves the ident of a surviving task. -/
theorem tickTask_ident (cfg : Config) (now : Nat) (msgs : List Message)
    (t t' : Task) (h : (tickTask cfg now msgs t).1 = some t') :
    t'.ident = t.ident := by
  unfold tickTask at h
  split at h
  · simp at h
  · rename_i heq
    simp only [Option.some.injEq] at h
    subst h
    rw [gcTask_ident _ _ _ _ _ heq, applyMessages_ident, scheduleTask_ident]

/-- Every signal emitted while applying one payload is tagged with the task's
ident. -/
theorem applyPayload_signals_ident (now : Nat) (p : Payload) (t : Task)
    (sg : SentSignal) (h : sg ∈ (applyPayload now p t).2) :
    sg.taskIdent = t.ident := by
  unfold applyPayload at h
  cases p <;> simp only [] at h
  · split at h <;> simp at h
  · split at h
    · split at h <;> simp at h
      rw [h]
    · simp at h
  · simp at h

/-- Every signal emitted while draining messages onto a task is tagged with
the task's ident. -/
theorem applyMessages_signals_ident (now : Nat) (msgs : List Message)
    (t : Task) (sg : SentSignal) (h : sg ∈ (applyMessages now msgs t).2) :
    sg.taskIdent = t.ident := by
  induction msgs generalizing t with
  | nil => simp [applyMessages] at h
  | cons m rest ih =>
      unfold applyMessages at h
      split at h
      · simp only [List.mem_append] at h
        rcases h with h | h
        · exact applyPayload_signals_ident now m.payload t sg h
        · simpa [applyPayload_ident] using
            ih (applyPayload now m.payload t).1 h
      · exact ih t h

/-- Every signal emitted while killing a pending task is tagged with the
task's ident. -/
theorem killPending_signals_ident (t : Task) (sg : SentSignal)
    (hm : sg ∈ (killPending t).2) : sg.taskIdent = t.ident := by
  unfold killPending at hm
  split at hm
  · split at hm <;> simp at hm
    rw [hm]
  · simp at hm

/-- Every signal emitted by garbage collection of one task is tagged with the
task's ident. -/
theorem gcTask_signals_ident (cfg : Config) (now : Nat) (t t' : Task)
    (sigs : List SentSignal) (h : gcTask cfg now t = some (t', sigs))
    (sg : SentSignal) (hm : sg ∈ sigs) : sg.taskIdent = t.ident := by
  unfold gcTask at h
  split at h
  · exact absurd h (by simp)
  · simp only [Option.some.injEq] at h
    have := congrArg Prod.snd h
    simp only [] at this
    rw [← this] at hm
    rw [killPending_signals_ident _ _ hm, requestKillIfDefunct_ident]

/-- Every signal emitted by one tick on behalf of a task is tagged with the
task's ident. -/
theorem tickTask_signals_ident (cfg : Config) (now : Nat)
    (msgs : List Message) (t : Task) (sg : SentSignal)
    (h : sg ∈ (tickTask cfg now msgs t).2) : sg.taskIdent = t.ident := by
  unfold tickTask at h
  split at h
  · rw [← scheduleTask_ident t]
    exact applyMessages_signals_ident _ _ _ _ h
  · rename_i heq
    simp only [List.mem_append] at h
    rcases h with h | h
    · rw [← scheduleTask_ident t]
      exact applyMessages_signals_ident _ _ _ _ h
    · rw [← scheduleTask_ident t, ← applyMessages_ident now msgs (scheduleTask t)]
      exact gcTask_signals_ident _ _ _ _ _ heq _ h

/-- Unfolding equation of `applyMessages` on a cons cell. -/
theorem applyMessages_cons (now : Nat) (m : Message) (rest : List Message)
    (t : Task) :
    applyMessages now (m :: rest) t =
      if m.taskIdent == t.ident then
        ((applyMessages now rest (applyPayload now m.payload t).1).1,
          (applyPayload now m.payload t).2 ++
            (applyMessages now rest (applyPayload now m.payload t).1).2)
      else applyMessages now rest t := rfl

/-- Draining messages only looks at the messages whose ident matches the
task. -/
theorem applyMessages_filter (now : Nat) (msgs : List Message) (t : Task) :
    applyMessages now msgs t
      = applyMessages now (msgs.filter (fun m => m.taskIdent == t.ident)) t := by
  induction msgs generalizing t with
  | nil => rfl
  | cons m rest ih =>
      by_cases hm : (m.taskIdent == t.ident) = true
      · rw [List.filter_cons_of_pos
          (p := fun (m : Message) => m.taskIdent == t.ident) hm]
        rw [applyMessages_cons, applyMessages_cons, if_pos hm, if_pos hm]
        have hrw := ih (applyPayload now m.payload t).1
        rw [applyPayload_ident] at hrw
        rw [hrw]
      · rw [List.filter_cons_of_neg
          (p := fun (m : Message) => m.taskIdent == t.ident) hm]
        rw [applyMessages_cons, if_neg hm]
        exact ih t

/-- A task none of whose messages are in the queue is unchanged by the
drain. -/
theorem applyMessages_of_filter_nil (now : Nat) (msgs : List Message)
    (t : Task) (h : msgs.filter (fun m => m.taskIdent == t.ident) = []) :
    applyMessages now msgs t = (t, []) := by
  rw [applyMessages_filter, h]
  rfl

/-- When exactly one message in the queue concerns the task, the drain is the
application of that message. -/
theorem applyMessages_of_filter_single (now : Nat) (msgs : List Message)
    (t : Task) (m : Message)
    (h : msgs.filter (fun m => m.taskIdent == t.ident) = [m]) :
    applyMessages now msgs t = applyPayload now m.payload t := by
  have hm : (m.taskIdent == t.ident) = true := by
    have : m ∈ msgs.filter (fun m => m.taskIdent == t.ident) := by
      rw [h]; exact List.mem_singleton_self m
    exact (List.mem_filter.mp this).2
  rw [applyMessages_filter, h, applyMessages_cons, if_pos hm]
  simp [applyMessages]

/-- After a tick, a register holding no task of ident `i` still holds none,
and no signal concerning `i` is emitted. -/
theorem tick_find_none (cfg : Config) (now : Nat) (msgs : List Message)
    (i : String) (r : List Task) (h : ∀ u ∈ r, u.ident ≠ i) :
    ((r.map (tickTask cfg now msgs)).filterMap Prod.fst).find?
        (fun u => u.ident == i) = none ∧
    signalsFor i (((r.map (tickTask cfg now msgs)).map Prod.snd).flatten)
      = [] := by
  constructor
  · rw [List.find?_eq_none]
    intro u hu
    simp only [List.mem_filterMap, List.mem_map] at hu
    obtain ⟨p, ⟨a, ha, hpa⟩, hp⟩ := hu
    have : u.ident = a.ident := by
      subst hpa
      exact tickTask_ident cfg now msgs a u hp
    simp only [beq_iff_eq, this]
    exact h a ha
  · rw [signalsFor, List.filter_eq_nil_iff]
    intro sg hsg
    simp only [List.mem_flatten, List.mem_map] at hsg
    obtain ⟨l, ⟨p, ⟨a, ha, hpa⟩, hp⟩, hl⟩ := hsg
    subst hpa hp
    have : sg.taskIdent = a.ident := tickTask_signals_ident cfg now msgs a sg hl
    simp only [beq_iff_eq, this]
    exact h a ha

/-- The central per-task view of a tick: with no duplicate idents in the
register, the record found at ident `i` after a tick is exactly the result of
`tickTask` on the record found before, and the signals concerning `i` are
exactly the signals of that `tickTask`. -/
theorem tick_find (cfg : Config) (now : Nat) (msgs : List Message)
    (i : String) (r : List Task) (hnd : (r.map Task.ident).Nodup)
    (t : Task) (hf : r.find? (fun u => u.ident == i) = some t) :
    ((r.map (tickTask cfg now msgs)).filterMap Prod.fst).find?
        (fun u => u.ident == i) = (tickTask cfg now msgs t).1 ∧
    signalsFor i (((r.map (tickTask cfg now msgs)).map Prod.snd).flatten)
      = (tickTask cfg now msgs t).2 := by
  induction r with
  | nil => exact absurd hf (by simp)
  | cons a r ih =>
      simp only [List.map_cons, List.nodup_cons] at hnd
      by_cases ha : (a.ident == i) = true
      · rw [List.find?_cons_of_pos (p := fun (u : Task) => u.ident == i) _ ha] at hf
        have hat : t = a := by injection hf with hf; exact hf.symm
        subst hat
        have hrest : ∀ u ∈ r, u.ident ≠ i := by
          intro u hu hui
          have hmem : u.ident ∈ r.map Task.ident :=
            List.mem_map_of_mem Task.ident hu
          rw [hui, ← beq_iff_eq.mp ha] at hmem
          exact hnd.1 hmem
        obtain ⟨hfindr, hsigr⟩ := tick_find_none cfg now msgs i r hrest
        constructor
        · rw [List.map_cons]
          cases h1 : (tickTask cfg now msgs t).1 with
          | some t' =>
              rw [List.filterMap_cons_some (f := Prod.fst) h1]
              have ht' : (t'.ident == i) = true := by
                rw [tickTask_ident cfg now msgs t t' h1]
                exact ha
              rw [List.find?_cons_of_pos (p := fun (u : Task) => u.ident == i) _ ht']
          | none =>
              rw [List.filterMap_cons_none (f := Prod.fst) h1]
              rw [hfindr]
        · rw [List.map_cons, List.map_cons, List.flatten_cons, signalsFor,
            List.filter_append]
          have hall : ((tickTask cfg now msgs t).2).filter
              (fun sg => sg.taskIdent == i) = (tickTask cfg now msgs t).2 := by
            rw [List.filter_eq_self]
            intro sg hsg
            rw [tickTask_signals_ident cfg now msgs t sg hsg]
            exact ha
          rw [hall, signalsFor] at *
          rw [hsigr, List.append_nil]
      · rw [List.find?_cons_of_neg (p := fun (u : Task) => u.ident == i) _ ha] at hf
        obtain ⟨ihf, ihs⟩ := ih hnd.2 hf
        constructor
        · rw [List.map_cons]
          cases h1 : (tickTask cfg now msgs a).1 with
          | some t' =>
              rw [List.filterMap_cons_some (f := Prod.fst) h1]
              have ht' : ¬(t'.ident == i) = true := by
                rw [tickTask_ident cfg now msgs a t' h1]
                exact ha
              rw [List.find?_cons_of_neg (p := fun (u : Task) => u.ident == i) _ ht']
              exact ihf
          | none =>
              rw [List.filterMap_cons_none (f := Prod.fst) h1]
              exact ihf
        · rw [List.map_cons, List.map_cons, List.flatten_cons, signalsFor,
            List.filter_append]
          have hnone : ((tickTask cfg now msgs a).2).filter
              (fun sg => sg.taskIdent == i) = [] := by
            rw [List.filter_eq_nil_iff]
            intro sg hsg
            rw [tickTask_signals_ident cfg now msgs a sg hsg]
            exact ha
          rw [hnone, List.nil_append]
          exact ihs

/-- Scheduler-level reading of `tick_find` for a present task. -/
theorem findTask_perform_actions (s : Scheduler) (inp : TickInput)
    (i : String) (hnd : (s.taskRegister.map Task.ident).Nodup) (t : Task)
    (hf : findTask s i = some t) :
    findTask (perform_actions s inp).1 i
        = (tickTask s.config inp.now inp.messages t).1 ∧
    signalsFor i (perform_actions s inp).2.signals
        = (tickTask s.config inp.now inp.messages t).2 :=
  tick_find s.config inp.now inp.messages i s.taskRegister hnd t hf

/-- Scheduler-level reading of `tick_find_none` for an absent ident. -/
theorem findTask_perform_actions_none (s : Scheduler) (inp : TickInput)
    (i : String) (hf : findTask s i = none) :
    findTask (perform_actions s inp).1 i = none ∧
    signalsFor i (perform_actions s inp).2.signals = [] := by
  apply tick_find_none
  intro u hu hui
  rw [findTask, List.find?_eq_none] at hf
  exact hf u hu (by simp [hui])

/-- The idents of the register after a tick form a sublist of the idents
before, hence ticks preserve freedom from duplicate idents. -/
theorem tick_idents_sublist (cfg : Config) (now : Nat) (msgs : List Message)
    (r : List Task) :
    (((r.map (tickTask cfg now msgs)).filterMap Prod.fst).map Task.ident).Sublist
      (r.map Task.ident) := by
  induction r with
  | nil => simp
  | cons a r ih =>
      rw [List.map_cons]
      cases h1 : (tickTask cfg now msgs a).1 with
      | some t' =>
          rw [List.filterMap_cons_some (f := Prod.fst) h1, List.map_cons,
            List.map_cons, tickTask_ident cfg now msgs a t' h1]
          exact ih.cons₂ a.ident
      | none =>
          rw [List.filterMap_cons_none (f := Prod.fst) h1, List.map_cons]
          exact ih.cons a.ident

/-- Ticks preserve freedom from duplicate idents in the register. -/
theorem nodup_perform_actions (s : Scheduler) (inp : TickInput)
    (hnd : (s.taskRegister.map Task.ident).Nodup) :
    (((perform_actions s inp).1).taskRegister.map Task.ident).Nodup :=
  (tick_idents_sublist s.config inp.now inp.messages s.taskRegister).nodup hnd

/-- An ident absent from the register stays absent over any run, and no signal
concerning it is ever emitted. -/
theorem absent_stays (s : Scheduler) (i : String) (hf : findTask s i = none)
    (inps : List TickInput) :
    findTask (runTicks s inps).1 i = none ∧
    ∀ out ∈ (runTicks s inps).2, signalsFor i out.signals = [] := by
  induction inps generalizing s with
  | nil => exact ⟨hf, by simp [runTicks]⟩
  | cons inp rest ih =>
      obtain ⟨h1, h2⟩ := findTask_perform_actions_none s inp i hf
      obtain ⟨ih1, ih2⟩ := ih (perform_actions s inp).1 h1
      refine ⟨by simpa [runTicks] using ih1, ?_⟩
      intro out hout
      simp only [runTicks, List.mem_cons] at hout
      rcases hout with hout | hout
      · rw [hout]; exact h2
      · exact ih2 out hout

/-- A task that is not `CREATED` is not touched by the scheduling step. -/
theorem scheduleTask_not_created (t : Task) (h : ¬t.state = .created) :
    scheduleTask t = t := by
  unfold scheduleTask
  rw [if_neg (by simpa using h)]

/-- One tick on a fresh `CREATED` task with no messages: it is submitted and
becomes `QUEUED`; nothing else changes and no signal is sent. -/
theorem tickTask_created_fresh (cfg : Config) (now : Nat)
    (msgs : List Message) (t : Task) (hst : t.state = .created)
    (hk : t.killReason = none)
    (hmsg : msgs.filter (fun m => m.taskIdent == t.ident) = []) :
    tickTask cfg now msgs t = (some { t with state := .queued }, []) := by
  have hsched : scheduleTask t = { t with state := .queued } := by
    unfold scheduleTask
    rw [if_pos (by simp [hst]), hk]
    simp
  unfold tickTask
  rw [hsched, applyMessages_of_filter_nil now msgs _ (by simpa using hmsg)]
  simp [gcTask, Task.is_abandoned, Task.is_defunct, requestKillIfDefunct,
    killPending]

/-- One tick on a `CREATED` task with a pending kill and no messages: it is
finished as killed instead of being submitted; no signal is sent. -/
theorem tickTask_created_killed (cfg : Config) (now : Nat)
    (msgs : List Message) (t : Task) (hst : t.state = .created)
    (r : TaskKillReason) (hk : t.killReason = some r)
    (hlm : t.lastMessageTs = none) (htd : t.toDeleteTs = none)
    (hmsg : msgs.filter (fun m => m.taskIdent == t.ident) = []) :
    tickTask cfg now msgs t
      = (some { t with state := .finished, finishType := .kill }, []) := by
  have hsched : scheduleTask t
      = { t with state := .finished, finishType := .kill } := by
    unfold scheduleTask
    rw [if_pos (by simp [hst]), hk]
    simp
  unfold tickTask
  rw [hsched, applyMessages_of_filter_nil now msgs _ (by simpa using hmsg)]
  simp [gcTask, Task.is_abandoned, Task.is_defunct, requestKillIfDefunct,
    killPending, toDeleteElapsed, timedOut, htd, hlm]

/-- One tick on a `QUEUED` task with no messages: nothing happens, whether or
not a kill is pending (the kill waits for a pid). -/
theorem tickTask_queued_idle (cfg : Config) (now : Nat)
    (msgs : List Message) (t : Task) (hst : t.state = .queued)
    (hmsg : msgs.filter (fun m => m.taskIdent == t.ident) = []) :
    tickTask cfg now msgs t = (some t, []) := by
  unfold tickTask
  rw [scheduleTask_not_created t (by simp [hst]),
    applyMessages_of_filter_nil now msgs t hmsg]
  simp [gcTask, Task.is_abandoned, Task.is_defunct, requestKillIfDefunct,
    killPending, hst]

/-- One tick on an `EXECUTED` task, no messages, no pending kill, within the
unresponsive timeout: nothing happens. -/
theorem tickTask_executed_idle (cfg : Config) (now : Nat)
    (msgs : List Message) (t : Task) (hst : t.state = .executed)
    (hk : t.killReason = none)
    (hto : timedOut t.lastMessageTs cfg.taskUnresponsiveTimeout now = false)
    (hmsg : msgs.filter (fun m => m.taskIdent == t.ident) = []) :
    tickTask cfg now msgs t = (some t, []) := by
  unfold tickTask
  rw [scheduleTask_not_created t (by simp [hst]),
    applyMessages_of_filter_nil now msgs t hmsg]
  simp [gcTask, Task.is_abandoned, Task.is_defunct, requestKillIfDefunct,
    killPending, hst, hk, hto]

/-- One tick on an `EXECUTED` task, no messages, no pending kill, past the
unresponsive timeout: the task is marked `FINISHED(KILL, COMPLETION_TIMEOUT)`
and one SIGKILL is sent to its recorded worker pid. -/
theorem tickTask_executed_defunct (cfg : Config) (now : Nat)
    (msgs : List Message) (t : Task) (hst : t.state = .executed)
    (pid : Nat) (hp : t.workerPid = some pid)
    (hto : timedOut t.lastMessageTs cfg.taskUnresponsiveTimeout now = true)
    (hmsg : msgs.filter (fun m => m.taskIdent == t.ident) = []) :
    tickTask cfg now msgs t
      = (some { t with state := .finished, finishType := .kill,
                       killReason := some .completionTimeout },
         [⟨t.ident, pid, .sigkill⟩]) := by
  unfold tickTask
  rw [scheduleTask_not_created t (by simp [hst]),
    applyMessages_of_filter_nil now msgs t hmsg]
  simp [gcTask, Task.is_abandoned, Task.is_defunct, requestKillIfDefunct,
    killPending, hst, hto, hp]

/-- One tick on an `EXECUTED` task with a pending kill, no messages, within
the unresponsive timeout: the task is killed — one SIGKILL to its recorded
worker pid, transition to `FINISHED(KILL)`, the recorded kill reason kept. -/
theorem tickTask_executed_pending_kill (cfg : Config) (now : Nat)
    (msgs : List Message) (t : Task) (hst : t.state = .executed)
    (r : TaskKillReason) (hk : t.killReason = some r)
    (pid : Nat) (hp : t.workerPid = some pid)
    (hto : timedOut t.lastMessageTs cfg.taskUnresponsiveTimeout now = false)
    (hmsg : msgs.filter (fun m => m.taskIdent == t.ident) = []) :
    tickTask cfg now msgs t
      = (some { t with state := .finished, finishType := .kill },
         [⟨t.ident, pid, .sigkill⟩]) := by
  unfold tickTask
  rw [scheduleTask_not_created t (by simp [hst]),
    applyMessages_of_filter_nil now msgs t hmsg]
  simp [gcTask, Task.is_abandoned, Task.is_defunct, requestKillIfDefunct,
    killPending, hst, hto, hp, hk]

/-- One tick on a `QUEUED` task whose only message is `TaskExecuted(pid)` and
with no pending kill: the task becomes `EXECUTED` with the pid recorded; no
signal is sent. -/
theorem tickTask_queued_to_executed (cfg : Config) (now : Nat)
    (msgs : List Message) (t : Task) (hst : t.state = .queued)
    (hk : t.killReason = none) (pid : Nat)
    (hmsg : msgs.filter (fun m => m.taskIdent == t.ident)
      = [⟨t.ident, .taskExecuted pid⟩]) :
    tickTask cfg now msgs t
      = (some { t with state := .executed, workerPid := some pid,
                       lastMessageTs := some now }, []) := by
  unfold tickTask
  rw [scheduleTask_not_created t (by simp [hst]),
    applyMessages_of_filter_single now msgs t _ hmsg]
  simp [applyPayload, gcTask, Task.is_abandoned, Task.is_defunct,
    requestKillIfDefunct, killPending, timedOut, hst, hk]

/-- One tick on a `QUEUED` task with a pending kill whose only message is
`TaskExecuted(pid)`: the pid arrives and the pending kill is effected in the
same tick — exactly one SIGKILL to that pid and transition to
`FINISHED(KILL)`, the recorded kill reason kept. -/
theorem tickTask_queued_killed_executes (cfg : Config) (now : Nat)
    (msgs : List Message) (t : Task) (hst : t.state = .queued)
    (r : TaskKillReason) (hk : t.killReason = some r) (pid : Nat)
    (hmsg : msgs.filter (fun m => m.taskIdent == t.ident)
      = [⟨t.ident, .taskExecuted pid⟩]) :
    tickTask cfg now msgs t
      = (some { t with state := .finished, finishType := .kill,
                       workerPid := some pid, lastMessageTs := some now },
         [⟨t.ident, pid, .sigkill⟩]) := by
  unfold tickTask
  rw [scheduleTask_not_created t (by simp [hst]),
    applyMessages_of_filter_single now msgs t _ hmsg]
  simp [applyPayload, gcTask, Task.is_abandoned, Task.is_defunct,
    requestKillIfDefunct, killPending, timedOut, hst, hk]

/-- One tick on an `EXECUTED` task whose only message is
`TaskFinished(ft, res)`: the task becomes `FINISHED(ft)` with the result
recorded, and the scheduler resumes the paused worker with SIGCONT. -/
theorem tickTask_executed_to_finished (cfg : Config) (now : Nat)
    (msgs : List Message) (t : Task) (hst : t.state = .executed)
    (htd : t.toDeleteTs = none) (pid : Nat) (hp : t.workerPid = some pid)
    (ft : TaskFinishType) (res : Option String)
    (hmsg : msgs.filter (fun m => m.taskIdent == t.ident)
      = [⟨t.ident, .taskFinished ft res⟩]) :
    tickTask cfg now msgs t
      = (some { t with state := .finished, finishType := ft, result := res,
                       lastMessageTs := some now },
         [⟨t.ident, pid, .sigcont⟩]) := by
  unfold tickTask
  rw [scheduleTask_not_created t (by simp [hst]),
    applyMessages_of_filter_single now msgs t _ hmsg]
  simp [applyPayload, gcTask, Task.is_abandoned, Task.is_defunct,
    requestKillIfDefunct, killPending, timedOut, toDeleteElapsed, hst, htd,
    hp]

/-- One tick on a `FINISHED` task with no messages, not yet eligible for
removal: nothing happens. -/
theorem tickTask_finished_idle (cfg : Config) (now : Nat)
    (msgs : List Message) (t : Task) (hst : t.state = .finished)
    (habn : t.is_abandoned cfg now = false)
    (hmsg : msgs.filter (fun m => m.taskIdent == t.ident) = []) :
    tickTask cfg now msgs t = (some t, []) := by
  unfold tickTask
  rw [scheduleTask_not_created t (by simp [hst]),
    applyMessages_of_filter_nil now msgs t hmsg]
  simp [gcTask, Task.is_defunct, requestKillIfDefunct, killPending, hst, habn]

/-- One tick on a `FINISHED` task with no messages, eligible for removal: the
record is removed and no signal is sent. -/
theorem tickTask_finished_removed (cfg : Config) (now : Nat)
    (msgs : List Message) (t : Task) (hst : t.state = .finished)
    (habn : t.is_abandoned cfg now = true)
    (hmsg : msgs.filter (fun m => m.taskIdent == t.ident) = []) :
    tickTask cfg now msgs t = (none, []) := by
  unfold tickTask
  rw [applyMessages_of_filter_nil now msgs _
    (by rw [scheduleTask_not_created t (by simp [hst])]; exact hmsg)]
  rw [scheduleTask_not_created t (by simp [hst])]
  simp [gcTask, habn]

/-- A message applied to a `FINISHED` task can only attach a late report: the
state, finish type, kill reason and result are untouched and no signal is
emitted. -/
theorem applyPayload_finished (now : Nat) (p : Payload) (t : Task)
    (h : t.state = .finished) :
    (applyPayload now p t).1.state = .finished ∧
    (applyPayload now p t).1.finishType = t.finishType ∧
    (applyPayload now p t).1.killReason = t.killReason ∧
    (applyPayload now p t).1.result = t.result ∧
    (applyPayload now p t).2 = [] := by
  unfold applyPayload
  cases p <;> simp [h]

/-- Draining any messages onto a `FINISHED` task preserves its state, finish
type, kill reason and result, and emits no signal. -/
theorem applyMessages_finished (now : Nat) (msgs : List Message) (t : Task)
    (h : t.state = .finished) :
    (applyMessages now msgs t).1.state = .finished ∧
    (applyMessages now msgs t).1.finishType = t.finishType ∧
    (applyMessages now msgs t).1.killReason = t.killReason ∧
    (applyMessages now msgs t).1.result = t.result ∧
    (applyMessages now msgs t).2 = [] := by
  induction msgs generalizing t with
  | nil => simp [applyMessages, h]
  | cons m rest ih =>
      rw [applyMessages_cons]
      by_cases hm : (m.taskIdent == t.ident) = true
      · rw [if_pos hm]
        obtain ⟨h1, h2, h3, h4, h5⟩ := applyPayload_finished now m.payload t h
        obtain ⟨g1, g2, g3, g4, g5⟩ := ih (applyPayload now m.payload t).1 h1
        exact ⟨g1, by rw [g2, h2], by rw [g3, h3], by rw [g4, h4],
          by rw [h5, g5]; rfl⟩
      · rw [if_neg hm]
        exact ih t h

/-- One tick on a `FINISHED` task, arbitrary messages: no signal is ever sent
on its behalf, and if the record survives it is still `FINISHED` with the same
finish type, kill reason and result. -/
theorem tickTask_finished_general (cfg : Config) (now : Nat)
    (msgs : List Message) (t : Task) (hst : t.state = .finished) :
    (tickTask cfg now msgs t).2 = [] ∧
    ∀ t', (tickTask cfg now msgs t).1 = some t' →
      t'.state = .finished ∧ t'.finishType = t.finishType ∧
      t'.killReason = t.killReason ∧ t'.result = t.result := by
  have hsched : scheduleTask t = t := scheduleTask_not_created t (by simp [hst])
  obtain ⟨h1, h2, h3, h4, h5⟩ := applyMessages_finished now msgs t hst
  unfold tickTask
  rw [hsched]
  by_cases habn :
      ((applyMessages now msgs t).1.is_abandoned cfg now) = true
  · rw [show gcTask cfg now (applyMessages now msgs t).1 = none from by
      simp [gcTask, habn]]
    exact ⟨h5, by intro t' ht'; exact absurd ht' (by simp)⟩
  · rw [show gcTask cfg now (applyMessages now msgs t).1
        = some ((applyMessages now msgs t).1, []) from by
      simp [gcTask, habn, requestKillIfDefunct, Task.is_defunct, killPending,
        h1]]
    refine ⟨by rw [h5]; rfl, ?_⟩
    intro t' ht'
    simp only [Option.some.injEq] at ht'
    subst ht'
    exact ⟨h1, h2, h3, h4⟩

/-- A `FINISHED` task never has a signal sent on its behalf again, and as long
as it is present its finish type, kill reason and result are preserved, over
any run of ticks with any messages. -/
theorem finished_stays (s : Scheduler) (i : String) (t : Task)
    (hnd : (s.taskRegister.map Task.ident).Nodup)
    (hf : findTask s i = some t) (hst : t.state = .finished)
    (inps : List TickInput) :
    (∀ out ∈ (runTicks s inps).2, signalsFor i out.signals = []) ∧
    (findTask (runTicks s inps).1 i = none ∨
      ∃ t', findTask (runTicks s inps).1 i = some t' ∧
        t'.state = .finished ∧ t'.finishType = t.finishType ∧
        t'.killReason = t.killReason ∧ t'.result = t.result) := by
  induction inps generalizing s t with
  | nil =>
      exact ⟨by simp [runTicks], Or.inr ⟨t, by simpa [runTicks] using hf,
        hst, rfl, rfl, rfl⟩⟩
  | cons inp rest ih =>
      obtain ⟨hfind, hsig⟩ := findTask_perform_actions s inp i hnd t hf
      obtain ⟨hz, hpres⟩ :=
        tickTask_finished_general s.config inp.now inp.messages t hst
      have hnd' := nodup_perform_actions s inp hnd
      cases h1 : (tickTask s.config inp.now inp.messages t).1 with
      | none =>
          rw [h1] at hfind
          obtain ⟨ha1, ha2⟩ := absent_stays (perform_actions s inp).1 i
            hfind rest
          refine ⟨?_, Or.inl (by simpa [runTicks] using ha1)⟩
          intro out hout
          simp only [runTicks, List.mem_cons] at hout
          rcases hout with hout | hout
          · rw [hout, hsig]
            exact hz
          · exact ha2 out hout
      | some t' =>
          rw [h1] at hfind
          obtain ⟨p1, p2, p3, p4⟩ := hpres t' h1
          obtain ⟨ih1, ih2⟩ := ih (perform_actions s inp).1 t' hnd' hfind p1
          refine ⟨?_, ?_⟩
          · intro out hout
            simp only [runTicks, List.mem_cons] at hout
            rcases hout with hout | hout
            · rw [hout, hsig]
              exact hz
            · exact ih1 out hout
          · rcases ih2 with ih2 | ⟨t'', q1, q2, q3, q4, q5⟩
            · exact Or.inl (by simpa [runTicks] using ih2)
            · exact Or.inr ⟨t'', by simpa [runTicks] using q1, q2,
                by rw [q3, p2], by rw [q4, p3], by rw [q5, p4]⟩

/-- Updating the task at ident `i` in a register commutes with looking up
ident `i`, provided the update preserves idents. -/
theorem find?_map_update (r : List Task) (i : String) (f : Task → Task)
    (hid : ∀ u, (f u).ident = u.ident) :
    (r.map (fun u => if u.ident == i then f u else u)).find?
        (fun u => u.ident == i)
      = (r.find? (fun u => u.ident == i)).map f := by
  induction r with
  | nil => rfl
  | cons a r ih =>
      rw [List.map_cons]
      by_cases ha : (a.ident == i) = true
      · rw [if_pos ha]
        rw [List.find?_cons_of_pos (p := fun (u : Task) => u.ident == i) _
          (by simpa [hid a] using ha)]
        rw [List.find?_cons_of_pos (p := fun (u : Task) => u.ident == i) _ ha]
        rfl
      · rw [if_neg ha]
        rw [List.find?_cons_of_neg (p := fun (u : Task) => u.ident == i) _ ha,
          List.find?_cons_of_neg (p := fun (u : Task) => u.ident == i) _ ha]
        exact ih

/-- Updating the task at ident `i` in a register does not change the lookup of
any other ident. -/
theorem find?_map_update_ne (r : List Task) (i i2 : String) (h : i2 ≠ i)
    (f : Task → Task) (hid : ∀ u, (f u).ident = u.ident) :
    (r.map (fun u => if u.ident == i then f u else u)).find?
        (fun u => u.ident == i2)
      = r.find? (fun u => u.ident == i2) := by
  induction r with
  | nil => rfl
  | cons a r ih =>
      rw [List.map_cons]
      by_cases ha : (a.ident == i) = true
      · rw [if_pos ha]
        have hne : ¬((f a).ident == i2) = true := by
          rw [hid a, beq_iff_eq.mp ha]
          simp [Ne.symm h]
        have hne2 : ¬(a.ident == i2) = true := by
          rw [beq_iff_eq.mp ha]
          simp [Ne.symm h]
        rw [List.find?_cons_of_neg (p := fun (u : Task) => u.ident == i2) _
          hne,
          List.find?_cons_of_neg (p := fun (u : Task) => u.ident == i2) _
          hne2]
        exact ih
      · rw [if_neg ha]
        by_cases ha2 : (a.ident == i2) = true
        · rw [List.find?_cons_of_pos (p := fun (u : Task) => u.ident == i2) _
            ha2,
            List.find?_cons_of_pos (p := fun (u : Task) => u.ident == i2) _
            ha2]
        · rw [List.find?_cons_of_neg (p := fun (u : Task) => u.ident == i2) _
            ha2,
            List.find?_cons_of_neg (p := fun (u : Task) => u.ident == i2) _
            ha2]
          exact ih

/-- The task found at an ident carries that ident. -/
theorem findTask_ident (s : Scheduler) (i : String) (t : Task)
    (hf : findTask s i = some t) : t.ident = i := by
  unfold findTask at hf
  have h := List.find?_some hf
  simpa using h

/-- Garbage collection removes a task exactly when it is abandoned. -/
theorem gcTask_none_iff (cfg : Config) (now : Nat) (t : Task) :
    gcTask cfg now t = none ↔ t.is_abandoned cfg now = true := by
  unfold gcTask
  split <;> simp_all

/-- Unfolding of the abandonment test. -/
theorem is_abandoned_iff (t : Task) (cfg : Config) (now : Nat) :
    t.is_abandoned cfg now = true ↔
      t.state = .finished ∧
        (toDeleteElapsed t.toDeleteTs now = true ∨
          timedOut t.lastMessageTs cfg.taskAbandonedTimeout now = true) := by
  unfold Task.is_abandoned
  simp [Bool.and_eq_true, Bool.or_eq_true, beq_iff_eq]

/-- The scheduling step preserves the deletion timestamp. -/
theorem scheduleTask_toDeleteTs (t : Task) :
    (scheduleTask t).toDeleteTs = t.toDeleteTs := by
  unfold scheduleTask
  split <;> [skip; rfl]
  split <;> rfl

/-- Message application preserves the deletion timestamp. -/
theorem applyPayload_toDeleteTs (now : Nat) (p : Payload) (t : Task) :
    (applyPayload now p t).1.toDeleteTs = t.toDeleteTs := by
  unfold applyPayload
  cases p <;> simp only [] <;> (try split) <;> rfl

/-- Draining messages preserves the deletion timestamp. -/
theorem applyMessages_toDeleteTs (now : Nat) (msgs : List Message)
    (t : Task) : (applyMessages now msgs t).1.toDeleteTs = t.toDeleteTs := by
  induction msgs generalizing t with
  | nil => rfl
  | cons m rest ih =>
      rw [applyMessages_cons]
      by_cases hm : (m.taskIdent == t.ident) = true
      · rw [if_pos hm]
        calc (applyMessages now rest (applyPayload now m.payload t).1).1.toDeleteTs
            = (applyPayload now m.payload t).1.toDeleteTs :=
              ih (applyPayload now m.payload t).1
          _ = t.toDeleteTs := applyPayload_toDeleteTs now m.payload t
      · rw [if_neg hm]
        exact ih t

/-- Message application either keeps the last-message timestamp or stamps it
with the current clock. -/
theorem applyPayload_lastMsg (now : Nat) (p : Payload) (t : Task) :
    (applyPayload now p t).1.lastMessageTs = t.lastMessageTs ∨
    (applyPayload now p t).1.lastMessageTs = some now := by
  unfold applyPayload
  cases p <;> simp only [] <;> (try split) <;> simp

/-- Draining messages either keeps the last-message timestamp or stamps it
with the current clock. -/
theorem applyMessages_lastMsg (now : Nat) (msgs : List Message) (t : Task) :
    (applyMessages now msgs t).1.lastMessageTs = t.lastMessageTs ∨
    (applyMessages now msgs t).1.lastMessageTs = some now := by
  induction msgs generalizing t with
  | nil => exact Or.inl rfl
  | cons m rest ih =>
      rw [applyMessages_cons]
      by_cases hm : (m.taskIdent == t.ident) = true
      · rw [if_pos hm]
        rcases ih (applyPayload now m.payload t).1 with h | h
        · rw [h]
          exact applyPayload_lastMsg now m.payload t
        · exact Or.inr h
      · rw [if_neg hm]
        exact ih t

/-- A task can only become `FINISHED` through a message that also stamps its
last-message timestamp with the current clock. -/
theorem applyPayload_finished_lastMsg (now : Nat) (p : Payload) (t : Task)
    (h : (applyPayload now p t).1.state = .finished) :
    t.state = .finished ∨ (applyPayload now p t).1.lastMessageTs = some now := by
  unfold applyPayload at h ⊢
  cases p <;> simp only [] at h ⊢
  · split at h <;> simp_all
  · split <;> simp_all
  · simp_all

/-- Draining messages can make a task `FINISHED` only by stamping its
last-message timestamp with the current clock. -/
theorem applyMessages_finished_lastMsg (now : Nat) (msgs : List Message)
    (t : Task) (h : (applyMessages now msgs t).1.state = .finished) :
    t.state = .finished ∨
    (applyMessages now msgs t).1.lastMessageTs = some now := by
  induction msgs generalizing t with
  | nil => exact Or.inl h
  | cons m rest ih =>
      rw [applyMessages_cons] at h ⊢
      by_cases hm : (m.taskIdent == t.ident) = true
      · rw [if_pos hm] at h ⊢
        rcases ih (applyPayload now m.payload t).1 h with hmid | hlast
        · rcases applyPayload_finished_lastMsg now m.payload t hmid with
            hfin | hstamp
          · exact Or.inl hfin
          · rcases applyMessages_lastMsg now rest
              (applyPayload now m.payload t).1 with hkeep | hnew
            · exact Or.inr (by rw [hkeep]; exact hstamp)
            · exact Or.inr hnew
        · exact Or.inr hlast
      · rw [if_neg hm] at h ⊢
        exact ih t h

/-- The scheduling step never makes a task without a pending kill
`FINISHED`. -/
theorem scheduleTask_state_nofinish (t : Task) (hst : ¬t.state = .finished)
    (hk : t.killReason = none) : ¬(scheduleTask t).state = .finished := by
  unfold scheduleTask
  split
  · rw [hk]
    simp
  · exact hst

/-- A task that is not terminal and has no pending kill is never removed by a
tick, whatever messages arrive. -/
theorem nonterminal_survives (cfg : Config) (now : Nat)
    (msgs : List Message) (t : Task) (hst : ¬t.state = .finished)
    (hk : t.killReason = none) (htd : t.toDeleteTs = none) :
    ∃ t', (tickTask cfg now msgs t).1 = some t' := by
  have hu0st : ¬(scheduleTask t).state = .finished :=
    scheduleTask_state_nofinish t hst hk
  have hutd : (applyMessages now msgs (scheduleTask t)).1.toDeleteTs = none :=
    by rw [applyMessages_toDeleteTs, scheduleTask_toDeleteTs]; exact htd
  cases hgc : gcTask cfg now (applyMessages now msgs (scheduleTask t)).1 with
  | none =>
      exfalso
      obtain ⟨hfin, hrem⟩ :=
        (is_abandoned_iff _ cfg now).mp ((gcTask_none_iff cfg now _).mp hgc)
      rcases hrem with hrem | hrem
      · rw [hutd] at hrem
        exact absurd hrem (by simp [toDeleteElapsed])
      · rcases applyMessages_finished_lastMsg now msgs (scheduleTask t) hfin
          with hc | hc
        · exact hu0st hc
        · rw [hc] at hrem
          exact absurd hrem (by simp [timedOut])
  | some p =>
      exact ⟨p.1, by simp [tickTask, hgc]⟩

/-- A successful `get_task` exists exactly when the ident is present. -/
theorem get_task_of_findTask_none (s : Scheduler) (i : String) (now : Nat)
    (hf : findTask s i = none) :
    get_task s i now = .error (.taskNotFound i) := by
  unfold get_task
  rw [hf]

/-- Unfolding equation of `get_task` on a present ident. -/
theorem get_task_eq_of_find (s : Scheduler) (i : String) (now : Nat)
    (t : Task) (hf : findTask s i = some t) :
    get_task s i now =
      if t.state == .finished && t.toDeleteTs == none then
        .ok (t.toInfo,
          { s with taskRegister := s.taskRegister.map (fun u =>
              if u.ident == i then
                { u with
                    toDeleteTs := some (now + s.config.deleteAfterTerminal) }
              else u) })
      else .ok (t.toInfo, s) := by
  unfold get_task
  rw [hf]

/-- `get_task` on a present ident always succeeds and returns the snapshot. -/
theorem get_task_ok (s : Scheduler) (i : String) (now : Nat) (t : Task)
    (hf : findTask s i = some t) :
    ∃ s2, get_task s i now = .ok (t.toInfo, s2) := by
  rw [get_task_eq_of_find s i now t hf]
  by_cases hc : (t.state == TaskState.finished && t.toDeleteTs == none) = true
  · rw [if_pos hc]
    exact ⟨_, rfl⟩
  · rw [if_neg hc]
    exact ⟨s, rfl⟩

end Lemmas

section Claims

/-- C1 counterexample: a task created at time 0 whose age (61 s) exceeds
`task_abandoned_timeout` (60 s) and whose state is not terminal is NOT removed
by the garbage-collection step of `perform_actions` — after the tick,
`get_task` still succeeds and reports the task `QUEUED` and `UNFINISHED`,
where the claim asserts the record is absent and `get_task` raises
`TaskNotFound`.  This matches the repository's own
`test_created_abandoned_timeout`. -/
theorem c1_gc_abandoned_claim_counterexample :
    0 + exCfg.taskAbandonedTimeout < 61 ∧
    (get_task (perform_actions (new_task (newScheduler exCfg) "id0" "cmd" 0)
          ⟨61, [], []⟩).1 "id0" 61).toOption.map Prod.fst
      = some { taskIdent := "id0", state := .queued,
               taskFinishType := .unfinished, killReason := none,
               result := none, reports := [] } := by
  decide

/-- C1 (amended): the abandoned-timeout garbage collection never removes a
non-terminal task.  Precisely: (1) a tick's GC removes a record exactly when
it is `FINISHED` and either its armed deletion timestamp has passed or its
last message is older than `task_abandoned_timeout`; (2) a non-terminal task
with no pending kill survives every tick; (3) an `EXECUTED` task within the
unresponsive timeout survives unchanged at any clock, in particular past the
abandoned timeout (it is the unresponsive timeout, not the abandoned one,
that kills `EXECUTED` tasks). -/
theorem c1_gc_abandoned_amended :
    (∀ (cfg : Config) (now : Nat) (t : Task),
      gcTask cfg now t = none ↔
        t.state = .finished ∧
          (toDeleteElapsed t.toDeleteTs now = true ∨
            timedOut t.lastMessageTs cfg.taskAbandonedTimeout now = true)) ∧
    (∀ (s : Scheduler) (inp : TickInput) (i : String) (t : Task),
      (s.taskRegister.map Task.ident).Nodup →
      findTask s i = some t →
      ¬t.state = .finished → t.killReason = none → t.toDeleteTs = none →
      ∃ t', findTask (perform_actions s inp).1 i = some t') ∧
    (∀ (s : Scheduler) (inp : TickInput) (i : String) (t : Task),
      (s.taskRegister.map Task.ident).Nodup →
      findTask s i = some t →
      t.state = .executed → t.killReason = none →
      timedOut t.lastMessageTs s.config.taskUnresponsiveTimeout inp.now
        = false →
      inp.messages.filter (fun m => m.taskIdent == i) = [] →
      findTask (perform_actions s inp).1 i = some t) := by
  refine ⟨?_, ?_, ?_⟩
  · intro cfg now t
    exact (gcTask_none_iff cfg now t).trans (is_abandoned_iff t cfg now)
  · intro s inp i t hnd hf hst hk htd
    obtain ⟨hfind, _⟩ := findTask_perform_actions s inp i hnd t hf
    obtain ⟨t', ht'⟩ :=
      nonterminal_survives s.config inp.now inp.messages t hst hk htd
    exact ⟨t', by rw [hfind, ht']⟩
  · intro s inp i t hnd hf hst hk hto hmsg
    obtain ⟨hfind, _⟩ := findTask_perform_actions s inp i hnd t hf
    rw [hfind, tickTask_executed_idle s.config inp.now inp.messages t hst hk
      hto (by rw [findTask_ident s i t hf]; exact hmsg)]

/-- C1 amended witness: an executed task at clock 61 — past the abandoned
timeout of 60 — survives the tick unchanged. -/
theorem c1_gc_abandoned_amended_witness :
    findTask (perform_actions (exSched exTaskExecuted) ⟨61, [], []⟩).1 "id0"
      = some exTaskExecuted :=
  c1_gc_abandoned_amended.2.2 (exSched exTaskExecuted) ⟨61, [], []⟩ "id0"
    exTaskExecuted (by decide) (by decide) (by decide) (by decide)
    (by decide) (by decide)

/-- C2 counterexample: a finished task whose `to_delete_timestamp` was never
set (it was never observed by `get_task`, so no deletion timestamp could have
elapsed) is nevertheless removed by the tick at clock 61, and `get_task` then
raises `TaskNotFound` — the claim asserts a task is retrievable until its
`to_delete_timestamp` elapses.  This matches the repository's own
`test_finished_abandoned_timeout`. -/
theorem c2_retrievability_counterexample :
    (findTask c2state "id0").map (fun t => (t.state, t.toDeleteTs))
      = some (.finished, none) ∧
    get_task (perform_actions c2state ⟨61, [], []⟩).1 "id0" 61
      = .error (.taskNotFound "id0") := by
  decide

/-- C2 (amended): a task is retrievable by `get_task` from submission until
garbage collection removes it; removal happens only to `FINISHED` tasks, as
soon as either the armed `to_delete_timestamp` has passed or the last worker
message is older than `task_abandoned_timeout` — whichever comes first.
Precisely: (1) a `FINISHED` task with neither condition met stays retrievable
after a tick; (2) once either condition is met the tick removes it and
`get_task` raises `TaskNotFound`; (3) a non-terminal task with no pending
kill stays retrievable after any tick. -/
theorem c2_retrievability_amended :
    (∀ (s : Scheduler) (inp : TickInput) (i : String) (t : Task),
      (s.taskRegister.map Task.ident).Nodup →
      findTask s i = some t → t.state = .finished →
      toDeleteElapsed t.toDeleteTs inp.now = false →
      timedOut t.lastMessageTs s.config.taskAbandonedTimeout inp.now
        = false →
      inp.messages.filter (fun m => m.taskIdent == i) = [] →
      findTask (perform_actions s inp).1 i = some t ∧
      ∀ now2, ∃ p, get_task (perform_actions s inp).1 i now2 = .ok p) ∧
    (∀ (s : Scheduler) (inp : TickInput) (i : String) (t : Task),
      (s.taskRegister.map Task.ident).Nodup →
      findTask s i = some t → t.state = .finished →
      (toDeleteElapsed t.toDeleteTs inp.now = true ∨
        timedOut t.lastMessageTs s.config.taskAbandonedTimeout inp.now
          = true) →
      inp.messages.filter (fun m => m.taskIdent == i) = [] →
      findTask (perform_actions s inp).1 i = none ∧
      ∀ now2, get_task (perform_actions s inp).1 i now2
        = .error (.taskNotFound i)) ∧
    (∀ (s : Scheduler) (inp : TickInput) (i : String) (t : Task),
      (s.taskRegister.map Task.ident).Nodup →
      findTask s i = some t →
      ¬t.state = .finished → t.killReason = none → t.toDeleteTs = none →
      ∃ t', findTask (perform_actions s inp).1 i = some t') := by
  refine ⟨?_, ?_, ?_⟩
  · intro s inp i t hnd hf hst hd1 hd2 hmsg
    obtain ⟨hfind, _⟩ := findTask_perform_actions s inp i hnd t hf
    have habn : t.is_abandoned s.config inp.now = false := by
      unfold Task.is_abandoned
      rw [hd1, hd2]
      simp
    have hkeep := tickTask_finished_idle s.config inp.now inp.messages t hst
      habn (by rw [findTask_ident s i t hf]; exact hmsg)
    rw [hfind, hkeep]
    refine ⟨rfl, ?_⟩
    intro now2
    obtain ⟨s2, hs2⟩ := get_task_ok (perform_actions s inp).1 i now2 t
      (by rw [hfind, hkeep])
    exact ⟨(t.toInfo, s2), hs2⟩
  · intro s inp i t hnd hf hst hrem hmsg
    obtain ⟨hfind, _⟩ := findTask_perform_actions s inp i hnd t hf
    have habn : t.is_abandoned s.config inp.now = true := by
      rw [is_abandoned_iff]
      exact ⟨hst, hrem⟩
    have hgone := tickTask_finished_removed s.config inp.now inp.messages t
      hst habn (by rw [findTask_ident s i t hf]; exact hmsg)
    rw [hfind, hgone]
    exact ⟨rfl, fun now2 => get_task_of_findTask_none _ i now2
      (by rw [hfind, hgone])⟩
  · intro s inp i t hnd hf hst hk htd
    obtain ⟨hfind, _⟩ := findTask_perform_actions s inp i hnd t hf
    obtain ⟨t', ht'⟩ :=
      nonterminal_survives s.config inp.now inp.messages t hst hk htd
    exact ⟨t', by rw [hfind, ht']⟩

/-- C2 amended witness: a finished task inside the grace window (deletion
timestamp armed for 1800, abandoned timeout not reached at clock 30) is still
retrievable after a tick. -/
theorem c2_retrievability_amended_witness :
    findTask (perform_actions
        (exSched { exTaskFinished with toDeleteTs := some 1800 })
        ⟨30, [], []⟩).1 "id0"
      = some { exTaskFinished with toDeleteTs := some 1800 } :=
  (c2_retrievability_amended.1
    (exSched { exTaskFinished with toDeleteTs := some 1800 }) ⟨30, [], []⟩
    "id0" { exTaskFinished with toDeleteTs := some 1800 } (by decide)
    (by decide) (by decide) (by decide) (by decide) (by decide)).1

/-- C3: during a tick, an `EXECUTED` task transitions to
`FINISHED(KILL, COMPLETION_TIMEOUT)` with one SIGKILL sent to its recorded
worker pid exactly when `now - last_message_timestamp` exceeds
`task_unresponsive_timeout`; and a task in `CREATED` or `QUEUED` (with no
pending kill) is never marked defunct: under the same clock advance it keeps
`finish_type = UNFINISHED` and a null `kill_reason`, and no signal is sent. -/
theorem c3_defunct_timeout :
    (∀ (s : Scheduler) (inp : TickInput) (i : String) (t : Task) (pid : Nat),
      (s.taskRegister.map Task.ident).Nodup →
      findTask s i = some t →
      t.state = .executed → t.killReason = none → t.workerPid = some pid →
      inp.messages.filter (fun m => m.taskIdent == i) = [] →
      (timedOut t.lastMessageTs s.config.taskUnresponsiveTimeout inp.now
          = true →
        findTask (perform_actions s inp).1 i
          = some { t with state := .finished, finishType := .kill,
                          killReason := some .completionTimeout } ∧
        signalsFor i (perform_actions s inp).2.signals
          = [⟨i, pid, .sigkill⟩]) ∧
      (timedOut t.lastMessageTs s.config.taskUnresponsiveTimeout inp.now
          = false →
        findTask (perform_actions s inp).1 i = some t ∧
        signalsFor i (perform_actions s inp).2.signals = [])) ∧
    (∀ (s : Scheduler) (inp : TickInput) (i : String) (t : Task),
      (s.taskRegister.map Task.ident).Nodup →
      findTask s i = some t →
      (t.state = .created ∨ t.state = .queued) →
      t.killReason = none → t.finishType = .unfinished →
      inp.messages.filter (fun m => m.taskIdent == i) = [] →
      ∃ t', findTask (perform_actions s inp).1 i = some t' ∧
        t'.finishType = .unfinished ∧ t'.killReason = none ∧
        signalsFor i (perform_actions s inp).2.signals = []) := by
  constructor
  · intro s inp i t pid hnd hf hst hk hp hmsg
    obtain ⟨hfind, hsig⟩ := findTask_perform_actions s inp i hnd t hf
    have hmsg' := hmsg
    rw [← findTask_ident s i t hf] at hmsg'
    constructor
    · intro hto
      rw [hfind, hsig,
        tickTask_executed_defunct s.config inp.now inp.messages t hst pid hp
          hto hmsg']
      rw [findTask_ident s i t hf]
      exact ⟨rfl, rfl⟩
    · intro hto
      rw [hfind, hsig,
        tickTask_executed_idle s.config inp.now inp.messages t hst hk hto
          hmsg']
      exact ⟨rfl, rfl⟩
  · intro s inp i t hnd hf hst hk hft hmsg
    obtain ⟨hfind, hsig⟩ := findTask_perform_actions s inp i hnd t hf
    have hmsg' := hmsg
    rw [← findTask_ident s i t hf] at hmsg'
    rcases hst with hst | hst
    · rw [hfind, hsig,
        tickTask_created_fresh s.config inp.now inp.messages t hst hk hmsg']
      exact ⟨{ t with state := .queued }, rfl, hft, hk, rfl⟩
    · rw [hfind, hsig,
        tickTask_queued_idle s.config inp.now inp.messages t hst hmsg']
      exact ⟨t, rfl, hft, hk, rfl⟩

/-- C3 witness: at clock 3601 the executed example task (silent since 0,
unresponsive timeout 3600) is killed with SIGKILL to pid 5; at clock 3600 the
boundary does not fire. -/
theorem c3_defunct_timeout_witness :
    (findTask (perform_actions (exSched exTaskExecuted) ⟨3601, [], []⟩).1
        "id0"
      = some { exTaskExecuted with
               state := .finished
               finishType := .kill
               killReason := some .completionTimeout } ∧
      signalsFor "id0"
          (perform_actions (exSched exTaskExecuted) ⟨3601, [], []⟩).2.signals
        = [⟨"id0", 5, .sigkill⟩]) ∧
    (findTask (perform_actions (exSched exTaskExecuted) ⟨3600, [], []⟩).1
        "id0" = some exTaskExecuted ∧
      signalsFor "id0"
          (perform_actions (exSched exTaskExecuted) ⟨3600, [], []⟩).2.signals
        = []) :=
  ⟨(c3_defunct_timeout.1 (exSched exTaskExecuted) ⟨3601, [], []⟩ "id0"
      exTaskExecuted 5 (by decide) (by decide) (by decide) (by decide)
      (by decide) (by decide)).1 (by decide),
   (c3_defunct_timeout.1 (exSched exTaskExecuted) ⟨3600, [], []⟩ "id0"
      exTaskExecuted 5 (by decide) (by decide) (by decide) (by decide)
      (by decide) (by decide)).2 (by decide)⟩

/-- C9: `get_task` raises `TaskNotFound` on an absent ident; on a present one
it returns the read-only snapshot of the record; its only side effect is that
on a `FINISHED` task with no deletion timestamp it arms garbage collection by
setting `to_delete_timestamp = now + delete_after_terminal`, observable
immediately afterwards; every other task, and the whole state when no arming
happens, is untouched. -/
theorem c9_get_task :
    (∀ (s : Scheduler) (i : String) (now : Nat),
      findTask s i = none → get_task s i now = .error (.taskNotFound i)) ∧
    (∀ (s : Scheduler) (i : String) (now : Nat) (t : Task),
      findTask s i = some t →
      ∃ s2, get_task s i now = .ok (t.toInfo, s2) ∧
        (∀ i2, i2 ≠ i → findTask s2 i2 = findTask s i2) ∧
        (t.state = .finished ∧ t.toDeleteTs = none →
          findTask s2 i = some
            { t with
                toDeleteTs := some (now + s.config.deleteAfterTerminal) }) ∧
        (¬(t.state = .finished ∧ t.toDeleteTs = none) → s2 = s)) := by
  constructor
  · exact get_task_of_findTask_none
  · intro s i now t hf
    rw [get_task_eq_of_find s i now t hf]
    by_cases hc : (t.state == TaskState.finished && t.toDeleteTs == none)
        = true
    · rw [if_pos hc]
      have hc' : t.state = .finished ∧ t.toDeleteTs = none := by
        simpa [Bool.and_eq_true] using hc
      refine ⟨_, rfl, ?_, ?_, ?_⟩
      · intro i2 hne
        exact find?_map_update_ne s.taskRegister i i2 hne _ (fun u => rfl)
      · intro _
        have hf' : s.taskRegister.find? (fun u => u.ident == i) = some t := hf
        show (s.taskRegister.map (fun u =>
            if u.ident == i then
              { u with
                  toDeleteTs := some (now + s.config.deleteAfterTerminal) }
            else u)).find? (fun u => u.ident == i)
          = some { t with
                   toDeleteTs := some (now + s.config.deleteAfterTerminal) }
        rw [find?_map_update s.taskRegister i
          (fun u =>
            { u with
                toDeleteTs := some (now + s.config.deleteAfterTerminal) })
          (fun u => rfl), hf']
        rfl
      · intro hcon
        exact absurd hc' hcon
    · rw [if_neg hc]
      refine ⟨s, rfl, fun i2 _ => rfl, ?_, fun _ => rfl⟩
      intro hc'
      exact absurd (by simp [Bool.and_eq_true, hc'.1, hc'.2]) hc

/-- C9 witness: the first `get_task` on the finished example task arms its
deletion timestamp to `now + delete_after_terminal` (5 + 1800). -/
theorem c9_get_task_witness :
    ∃ s2, get_task (exSched exTaskFinished) "id0" 5
        = .ok (exTaskFinished.toInfo, s2) ∧
      findTask s2 "id0"
        = some { exTaskFinished with toDeleteTs := some 1805 } := by
  obtain ⟨s2, hok, _, harm, _⟩ := c9_get_task.2 (exSched exTaskFinished)
    "id0" 5 exTaskFinished (by decide)
  exact ⟨s2, hok, by
    have := harm (by decide)
    simpa using this⟩

/-- Unfolding equation of `kill_task` on a present ident. -/
theorem kill_task_eq_of_find (s : Scheduler) (i : String) (t : Task)
    (hf : findTask s i = some t) :
    kill_task s i = .ok
      { s with taskRegister := s.taskRegister.map (fun u =>
          if u.ident == i then { u with killReason := some .user } else u) } := by
  unfold kill_task
  rw [hf]

/-- A successful `kill_task` implies the ident was present. -/
theorem kill_task_ok_inv (s : Scheduler) (i : String) (s2 : Scheduler)
    (h : kill_task s i = .ok s2) :
    ∃ t, findTask s i = some t ∧
      s2 = { s with taskRegister := s.taskRegister.map (fun u =>
          if u.ident == i then { u with killReason := some .user } else u) } := by
  cases hf : findTask s i with
  | none =>
      unfold kill_task at h
      rw [hf] at h
      exact absurd h (by simp)
  | some t =>
      rw [kill_task_eq_of_find s i t hf] at h
      injection h with h
      exact ⟨t, rfl, h.symm⟩

/-- Setting the kill reason at one ident is idempotent on the register. -/
theorem map_update_user_idem (r : List Task) (i : String) :
    (r.map (fun u =>
        if u.ident == i then { u with killReason := some .user } else u)).map
      (fun u =>
        if u.ident == i then { u with killReason := some .user } else u)
      = r.map (fun u =>
          if u.ident == i then { u with killReason := some .user } else u) := by
  rw [List.map_map]
  apply List.map_congr_left
  intro u _
  simp only [Function.comp_apply]
  by_cases hu : (u.ident == i) = true
  · rw [if_pos hu]
    rw [if_pos (show (({ u with killReason := some .user } : Task).ident == i)
      = true from by simpa using hu)]
  · rw [if_neg hu, if_neg hu]

/-- Updating one ident's record preserves the ident column of the register. -/
theorem map_update_idents (r : List Task) (i : String) (f : Task → Task)
    (hid : ∀ u, (f u).ident = u.ident) :
    ((r.map (fun u => if u.ident == i then f u else u)).map Task.ident)
      = r.map Task.ident := by
  rw [List.map_map]
  apply List.map_congr_left
  intro u _
  simp only [Function.comp_apply]
  by_cases hu : (u.ident == i) = true
  · rw [if_pos hu, hid u]
  · rw [if_neg hu]

/-- C5: `kill_task` on a task that is already terminal records
`kill_reason = USER` without altering the finish type (a `SUCCESS` finish
stays `SUCCESS` and its result is kept), is idempotent (a second call returns
the same state, and no call ever changes any task's finish type or result),
sends no signal itself, and the control loop never signals the finished task
afterwards. -/
theorem c5_kill_terminal :
    (∀ (s : Scheduler) (i : String) (t : Task),
      findTask s i = some t →
      ∃ s2, kill_task s i = .ok s2 ∧
        findTask s2 i = some { t with killReason := some .user } ∧
        (∀ i2, i2 ≠ i → findTask s2 i2 = findTask s i2) ∧
        kill_task s2 i = .ok s2) ∧
    (∀ (s : Scheduler) (i : String) (s2 : Scheduler),
      kill_task s i = .ok s2 →
      ∀ i2, (findTask s2 i2).map Task.finishType
          = (findTask s i2).map Task.finishType ∧
        (findTask s2 i2).map Task.result
          = (findTask s i2).map Task.result) ∧
    (∀ (s : Scheduler) (i : String) (t : Task) (s2 : Scheduler)
        (inps : List TickInput),
      (s.taskRegister.map Task.ident).Nodup →
      findTask s i = some t → t.state = .finished →
      kill_task s i = .ok s2 →
      (∀ out ∈ (runTicks s2 inps).2, signalsFor i out.signals = []) ∧
      (findTask (runTicks s2 inps).1 i = none ∨
        ∃ t', findTask (runTicks s2 inps).1 i = some t' ∧
          t'.finishType = t.finishType ∧
          t'.killReason = some .user)) := by
  have hfind2 : ∀ (s : Scheduler) (i : String) (t : Task),
      findTask s i = some t →
      findTask { s with taskRegister := s.taskRegister.map (fun u =>
          if u.ident == i then { u with killReason := some .user } else u) } i
        = some { t with killReason := some .user } := by
    intro s i t hf
    have hf' : s.taskRegister.find? (fun u => u.ident == i) = some t := hf
    show (s.taskRegister.map (fun u =>
        if u.ident == i then { u with killReason := some .user } else u)).find?
          (fun u => u.ident == i)
      = some { t with killReason := some .user }
    rw [find?_map_update s.taskRegister i
      (fun u => { u with killReason := some .user }) (fun u => rfl), hf']
    rfl
  refine ⟨?_, ?_, ?_⟩
  · intro s i t hf
    refine ⟨_, kill_task_eq_of_find s i t hf, hfind2 s i t hf, ?_, ?_⟩
    · intro i2 hne
      show (s.taskRegister.map (fun u =>
          if u.ident == i then { u with killReason := some .user }
          else u)).find? (fun u => u.ident == i2)
        = s.taskRegister.find? (fun u => u.ident == i2)
      exact find?_map_update_ne s.taskRegister i i2 hne
        (fun u => { u with killReason := some .user }) (fun u => rfl)
    · rw [kill_task_eq_of_find _ i { t with killReason := some .user }
        (hfind2 s i t hf), map_update_user_idem s.taskRegister i]
  · intro s i s2 hk i2
    obtain ⟨t, hf, hs2⟩ := kill_task_ok_inv s i s2 hk
    subst hs2
    by_cases hi : i2 = i
    · subst hi
      rw [show findTask _ i2 = some { t with killReason := some .user } from
        hfind2 s i2 t hf, hf]
      exact ⟨rfl, rfl⟩
    · rw [show findTask { s with taskRegister := s.taskRegister.map (fun u =>
            if u.ident == i then { u with killReason := some .user }
            else u) } i2
          = findTask s i2 from
        find?_map_update_ne s.taskRegister i i2 hi
          (fun u => { u with killReason := some .user }) (fun u => rfl)]
      exact ⟨rfl, rfl⟩
  · intro s i t s2 inps hnd hf hst hk
    obtain ⟨t0, hf0, hs2⟩ := kill_task_ok_inv s i s2 hk
    have ht0 : t0 = t := by rw [hf0] at hf; injection hf
    subst ht0 hs2
    have hnodup2 : (({ s with taskRegister := s.taskRegister.map (fun u =>
        if u.ident == i then { u with killReason := some .user } else u) }
          : Scheduler).taskRegister.map Task.ident).Nodup := by
      show ((s.taskRegister.map (fun u =>
        if u.ident == i then { u with killReason := some .user } else u)).map
          Task.ident).Nodup
      rw [map_update_idents s.taskRegister i
        (fun u => { u with killReason := some .user }) (fun u => rfl)]
      exact hnd
    obtain ⟨hsigs, hpres⟩ := finished_stays _ i
      { t0 with killReason := some .user } hnodup2 (hfind2 s i t0 hf0) hst
      inps
    refine ⟨hsigs, ?_⟩
    rcases hpres with h | ⟨t', h1, h2, h3, h4, _⟩
    · exact Or.inl h
    · exact Or.inr ⟨t', h1, h3, h4⟩

/-- C5 witness: killing the finished example task records `USER` while the
finish type stays `SUCCESS`, a second call is a no-op, and a subsequent tick
sends it no signal. -/
theorem c5_kill_terminal_witness :
    (∃ s2, kill_task (exSched exTaskFinished) "id0" = .ok s2 ∧
      findTask s2 "id0"
        = some { exTaskFinished with killReason := some .user } ∧
      (∀ i2, i2 ≠ "id0" →
        findTask s2 i2 = findTask (exSched exTaskFinished) i2) ∧
      kill_task s2 "id0" = .ok s2) :=
  c5_kill_terminal.1 (exSched exTaskFinished) "id0" exTaskFinished (by decide)

/-- C4: `kill_task` on a non-terminal task defers the signal until the task
reaches `EXECUTED`.  (1) A `CREATED` task with a pending user kill transitions
to `FINISHED(KILL)` (kill reason `USER` kept) on the next tick with no signal
sent and no pid ever recorded; (2) a `QUEUED` task with a pending kill is left
untouched, with no signal, while no pid exists; (3) the tick that delivers its
`TaskExecuted(pid)` sends exactly one SIGKILL to that pid and finishes it as
`FINISHED(KILL)`; (4) an already-`EXECUTED` task with a pending kill gets
exactly one SIGKILL to its recorded pid and finishes as `FINISHED(KILL)`; and
(5) once `FINISHED`, no signal is ever sent on the task's behalf again over
any run of ticks, so the signal of (3)/(4) is sent once and only once. -/
theorem c4_deferred_kill :
    (∀ (s : Scheduler) (inp : TickInput) (i : String) (t : Task),
      (s.taskRegister.map Task.ident).Nodup →
      findTask s i = some t →
      t.state = .created → t.killReason = some .user →
      t.lastMessageTs = none → t.toDeleteTs = none → t.workerPid = none →
      inp.messages.filter (fun m => m.taskIdent == i) = [] →
      findTask (perform_actions s inp).1 i
        = some { t with state := .finished, finishType := .kill } ∧
      signalsFor i (perform_actions s inp).2.signals = []) ∧
    (∀ (s : Scheduler) (inp : TickInput) (i : String) (t : Task),
      (s.taskRegister.map Task.ident).Nodup →
      findTask s i = some t →
      t.state = .queued → t.killReason = some .user →
      inp.messages.filter (fun m => m.taskIdent == i) = [] →
      findTask (perform_actions s inp).1 i = some t ∧
      signalsFor i (perform_actions s inp).2.signals = []) ∧
    (∀ (s : Scheduler) (inp : TickInput) (i : String) (t : Task) (pid : Nat),
      (s.taskRegister.map Task.ident).Nodup →
      findTask s i = some t →
      t.state = .queued → t.killReason = some .user →
      inp.messages.filter (fun m => m.taskIdent == i)
        = [⟨i, .taskExecuted pid⟩] →
      findTask (perform_actions s inp).1 i
        = some { t with state := .finished, finishType := .kill,
                        workerPid := some pid,
                        lastMessageTs := some inp.now } ∧
      signalsFor i (perform_actions s inp).2.signals
        = [⟨i, pid, .sigkill⟩]) ∧
    (∀ (s : Scheduler) (inp : TickInput) (i : String) (t : Task) (pid : Nat),
      (s.taskRegister.map Task.ident).Nodup →
      findTask s i = some t →
      t.state = .executed → t.killReason = some .user →
      t.workerPid = some pid →
      timedOut t.lastMessageTs s.config.taskUnresponsiveTimeout inp.now
        = false →
      inp.messages.filter (fun m => m.taskIdent == i) = [] →
      findTask (perform_actions s inp).1 i
        = some { t with state := .finished, finishType := .kill } ∧
      signalsFor i (perform_actions s inp).2.signals
        = [⟨i, pid, .sigkill⟩]) ∧
    (∀ (s : Scheduler) (i : String) (t : Task) (inps : List TickInput),
      (s.taskRegister.map Task.ident).Nodup →
      findTask s i = some t → t.state = .finished →
      ∀ out ∈ (runTicks s inps).2, signalsFor i out.signals = []) := by
  refine ⟨?_, ?_, ?_, ?_, ?_⟩
  · intro s inp i t hnd hf hst hk hlm htd hpid hmsg
    obtain ⟨hfind, hsig⟩ := findTask_perform_actions s inp i hnd t hf
    rw [hfind, hsig, tickTask_created_killed s.config inp.now inp.messages t
      hst .user hk hlm htd (by rw [findTask_ident s i t hf]; exact hmsg)]
    exact ⟨rfl, rfl⟩
  · intro s inp i t hnd hf hst hk hmsg
    obtain ⟨hfind, hsig⟩ := findTask_perform_actions s inp i hnd t hf
    rw [hfind, hsig, tickTask_queued_idle s.config inp.now inp.messages t hst
      (by rw [findTask_ident s i t hf]; exact hmsg)]
    exact ⟨rfl, rfl⟩
  · intro s inp i t pid hnd hf hst hk hmsg
    obtain ⟨hfind, hsig⟩ := findTask_perform_actions s inp i hnd t hf
    have hti := findTask_ident s i t hf
    rw [hfind, hsig, tickTask_queued_killed_executes s.config inp.now
      inp.messages t hst .user hk pid (by rw [hti]; exact hmsg)]
    rw [hti]
    exact ⟨rfl, rfl⟩
  · intro s inp i t pid hnd hf hst hk hp hto hmsg
    obtain ⟨hfind, hsig⟩ := findTask_perform_actions s inp i hnd t hf
    have hti := findTask_ident s i t hf
    rw [hfind, hsig, tickTask_executed_pending_kill s.config inp.now
      inp.messages t hst .user hk pid hp hto
      (by rw [hti]; exact hmsg)]
    rw [hti]
    exact ⟨rfl, rfl⟩
  · intro s i t inps hnd hf hst
    exact (finished_stays s i t hnd hf hst inps).1

/-- C4 witness: the pending-kill lifecycle on concrete states — a killed
`CREATED` task finishes with no signal; a killed `QUEUED` task is untouched by
an idle tick, then the tick delivering its pid sends exactly one SIGKILL; a
finished task receives no signal over a later run. -/
theorem c4_deferred_kill_witness :
    (findTask (perform_actions
          (exSched { Task.new "id0" "cmd" 0 with killReason := some .user })
          ⟨0, [], []⟩).1 "id0"
      = some { Task.new "id0" "cmd" 0 with
               killReason := some .user
               state := .finished
               finishType := .kill } ∧
     signalsFor "id0" (perform_actions
          (exSched { Task.new "id0" "cmd" 0 with killReason := some .user })
          ⟨0, [], []⟩).2.signals = []) ∧
    (findTask (perform_actions
          (exSched { exTaskQueued with killReason := some .user })
          ⟨0, [⟨"id0", .taskExecuted 5⟩], []⟩).1 "id0"
      = some { exTaskQueued with
               killReason := some .user
               state := .finished
               finishType := .kill
               workerPid := some 5
               lastMessageTs := some 0 } ∧
     signalsFor "id0" (perform_actions
          (exSched { exTaskQueued with killReason := some .user })
          ⟨0, [⟨"id0", .taskExecuted 5⟩], []⟩).2.signals
        = [⟨"id0", 5, .sigkill⟩]) := by
  constructor
  · have h := c4_deferred_kill.1
      (exSched { Task.new "id0" "cmd" 0 with killReason := some .user })
      ⟨0, [], []⟩ "id0"
      { Task.new "id0" "cmd" 0 with killReason := some .user }
      (by decide) (by decide) (by decide) (by decide) (by decide) (by decide)
      (by decide) (by decide)
    exact h
  · have h := c4_deferred_kill.2.2.1
      (exSched { exTaskQueued with killReason := some .user })
      ⟨0, [⟨"id0", .taskExecuted 5⟩], []⟩ "id0"
      { exTaskQueued with killReason := some .user } 5
      (by decide) (by decide) (by decide) (by decide) (by decide)
    exact h

/-- Every message emitted by the worker executor carries the task's ident. -/
theorem task_executor_msgs_ident (i : String) (pid : Nat) (rs : List String)
    (outcome : HandlerOutcome) :
    ∀ m ∈ task_executor i pid rs outcome, m.taskIdent = i := by
  intro m hm
  unfold task_executor at hm
  rcases List.mem_cons.mp hm with h | h
  · rw [h]
  · rcases List.mem_append.mp h with h | h
    · obtain ⟨r, _, hr⟩ := List.mem_map.mp h
      rw [← hr]
    · cases outcome <;> simp only [List.mem_singleton] at h <;> rw [h]

/-- Draining the executor's report messages followed by its terminal message
onto an `EXECUTED` task: the reports are attached in order, the task finishes
with the reported finish type and result, and the scheduler resumes the
paused worker with SIGCONT. -/
theorem drain_reports_then_finish (now : Nat) (i : String) (pid : Nat)
    (rs : List String) (ft : TaskFinishType) (res : Option String) (u : Task)
    (hst : u.state = .executed) (hti : u.ident = i)
    (hp : u.workerPid = some pid) :
    applyMessages now
        ((rs.map (fun r => (⟨i, .taskReport r⟩ : Message))) ++
          [⟨i, .taskFinished ft res⟩]) u
      = ({ u with state := .finished, finishType := ft, result := res,
                  reports := u.reports ++ rs, lastMessageTs := some now },
         [⟨i, pid, .sigcont⟩]) := by
  induction rs generalizing u with
  | nil =>
      rw [List.map_nil, List.nil_append, applyMessages_cons,
        if_pos (by simp [hti])]
      simp [applyPayload, applyMessages, hst, hp, hti]
  | cons r rs ih =>
      rw [List.map_cons, List.cons_append, applyMessages_cons,
        if_pos (by simp [hti])]
      rw [show applyPayload now (Payload.taskReport r) u
          = ({ u with reports := u.reports ++ [r],
                      lastMessageTs := some now }, []) from rfl]
      rw [ih { u with reports := u.reports ++ [r], lastMessageTs := some now }
        hst hti hp]
      simp [List.append_assoc]

/-- C6: the worker executor always ends with exactly one `TaskFinished`
message (exceptions never propagate), and feeding its messages through a tick
makes `get_task` report the corresponding finish type: `SUCCESS` with the
returned value on a normal return, `FAIL` with a null result on a declared
library error, `UNHANDLED_EXCEPTION` with a null result on any other
exception; the executor's reports are attached in order. -/
theorem c6_executor_outcomes :
    (∀ (i : String) (pid : Nat) (rs : List String)
        (outcome : HandlerOutcome),
      ∃ ft res, (task_executor i pid rs outcome).getLast?
        = some ⟨i, .taskFinished ft res⟩) ∧
    (∀ (s : Scheduler) (inp : TickInput) (i : String) (t : Task) (pid : Nat)
        (rs : List String) (outcome : HandlerOutcome) (now2 : Nat),
      (s.taskRegister.map Task.ident).Nodup →
      findTask s i = some t →
      t.state = .queued → t.toDeleteTs = none →
      inp.messages = task_executor i pid rs outcome →
      ∃ info s2,
        get_task (perform_actions s inp).1 i now2 = .ok (info, s2) ∧
        info.state = .finished ∧ info.reports = t.reports ++ rs ∧
        (∀ v, outcome = .ok v →
          info.taskFinishType = .success ∧ info.result = v) ∧
        (outcome = .libError →
          info.taskFinishType = .fail ∧ info.result = none) ∧
        (outcome = .unhandled →
          info.taskFinishType = .unhandledException ∧ info.result = none)) :=
  by
  constructor
  · intro i pid rs outcome
    cases outcome with
    | ok v =>
        refine ⟨.success, v, ?_⟩
        show ((⟨i, .taskExecuted pid⟩ : Message) ::
            (rs.map (fun r => (⟨i, .taskReport r⟩ : Message)) ++
              [⟨i, .taskFinished .success v⟩])).getLast? = _
        rw [← List.cons_append]
        exact List.getLast?_concat _
    | libError =>
        refine ⟨.fail, none, ?_⟩
        show ((⟨i, .taskExecuted pid⟩ : Message) ::
            (rs.map (fun r => (⟨i, .taskReport r⟩ : Message)) ++
              [⟨i, .taskFinished .fail none⟩])).getLast? = _
        rw [← List.cons_append]
        exact List.getLast?_concat _
    | unhandled =>
        refine ⟨.unhandledException, none, ?_⟩
        show ((⟨i, .taskExecuted pid⟩ : Message) ::
            (rs.map (fun r => (⟨i, .taskReport r⟩ : Message)) ++
              [⟨i, .taskFinished .unhandledException none⟩])).getLast? = _
        rw [← List.cons_append]
        exact List.getLast?_concat _
  · intro s inp i t pid rs outcome now2 hnd hf hst htd hmsgs
    have hti := findTask_ident s i t hf
    -- the drained record and the tick's effect on the task
    have hdrain : ∀ (ft : TaskFinishType) (res : Option String),
        applyMessages inp.now
            ((⟨i, .taskExecuted pid⟩ : Message) ::
              (rs.map (fun r => (⟨i, .taskReport r⟩ : Message)) ++
                [⟨i, .taskFinished ft res⟩])) t
          = ({ t with state := .finished, finishType := ft, result := res,
                      reports := t.reports ++ rs, workerPid := some pid,
                      lastMessageTs := some inp.now },
             [⟨i, pid, .sigcont⟩]) := by
      intro ft res
      rw [applyMessages_cons, if_pos (by simp [hti])]
      rw [show applyPayload inp.now (Payload.taskExecuted pid) t
          = ({ t with state := .executed, workerPid := some pid,
                      lastMessageTs := some inp.now }, []) from by
        simp [applyPayload, hst]]
      rw [drain_reports_then_finish inp.now i pid rs ft res
        { t with state := .executed, workerPid := some pid,
                 lastMessageTs := some inp.now } rfl hti rfl]
      rfl
    have htick : ∀ (ft : TaskFinishType) (res : Option String),
        ft ≠ .unfinished →
        tickTask s.config inp.now
            ((⟨i, .taskExecuted pid⟩ : Message) ::
              (rs.map (fun r => (⟨i, .taskReport r⟩ : Message)) ++
                [⟨i, .taskFinished ft res⟩])) t
          = (some { t with state := .finished, finishType := ft,
                           result := res, reports := t.reports ++ rs,
                           workerPid := some pid,
                           lastMessageTs := some inp.now },
             [⟨i, pid, .sigcont⟩]) := by
      intro ft res _
      unfold tickTask
      rw [scheduleTask_not_created t (by simp [hst]), hdrain ft res]
      simp [gcTask, Task.is_abandoned, Task.is_defunct, requestKillIfDefunct,
        killPending, toDeleteElapsed, timedOut, htd]
    obtain ⟨hfind, _⟩ := findTask_perform_actions s inp i hnd t hf
    rw [hmsgs] at hfind
    cases outcome with
    | ok v =>
        rw [show task_executor i pid rs (.ok v)
            = (⟨i, .taskExecuted pid⟩ : Message) ::
                (rs.map (fun r => (⟨i, .taskReport r⟩ : Message)) ++
                  [⟨i, .taskFinished .success v⟩]) from rfl,
          htick .success v (by simp)] at hfind
        obtain ⟨s2, hok⟩ := get_task_ok (perform_actions s inp).1 i now2 _
          hfind
        refine ⟨_, s2, hok, rfl, rfl, ?_, ?_, ?_⟩
        · intro v2 hv
          injection hv with hv
          rw [← hv]
          exact ⟨rfl, rfl⟩
        · intro h
          cases h
        · intro h
          cases h
    | libError =>
        rw [show task_executor i pid rs .libError
            = (⟨i, .taskExecuted pid⟩ : Message) ::
                (rs.map (fun r => (⟨i, .taskReport r⟩ : Message)) ++
                  [⟨i, .taskFinished .fail none⟩]) from rfl,
          htick .fail none (by simp)] at hfind
        obtain ⟨s2, hok⟩ := get_task_ok (perform_actions s inp).1 i now2 _
          hfind
        refine ⟨_, s2, hok, rfl, rfl, ?_, ?_, ?_⟩
        · intro v2 hv
          cases hv
        · intro _
          exact ⟨rfl, rfl⟩
        · intro h
          cases h
    | unhandled =>
        rw [show task_executor i pid rs .unhandled
            = (⟨i, .taskExecuted pid⟩ : Message) ::
                (rs.map (fun r => (⟨i, .taskReport r⟩ : Message)) ++
                  [⟨i, .taskFinished .unhandledException none⟩]) from rfl,
          htick .unhandledException none (by simp)] at hfind
        obtain ⟨s2, hok⟩ := get_task_ok (perform_actions s inp).1 i now2 _
          hfind
        refine ⟨_, s2, hok, rfl, rfl, ?_, ?_, ?_⟩
        · intro v2 hv
          cases hv
        · intro h
          cases h
        · intro _
          exact ⟨rfl, rfl⟩

/-- C6 witness: driving the queued example task through the executor's
messages for a successful handler returning "RESULT" yields a `SUCCESS`
snapshot carrying that result and the emitted report. -/
theorem c6_executor_outcomes_witness :
    ∃ info s2,
      get_task (perform_actions (exSched exTaskQueued)
          ⟨0, task_executor "id0" 5 ["rep"] (.ok (some "RESULT")), []⟩).1
        "id0" 0 = .ok (info, s2) ∧
      info.state = .finished ∧ info.reports = ["rep"] ∧
      info.taskFinishType = .success ∧ info.result = some "RESULT" := by
  obtain ⟨info, s2, hok, hfin, hrep, hsucc, _, _⟩ :=
    c6_executor_outcomes.2 (exSched exTaskQueued)
      ⟨0, task_executor "id0" 5 ["rep"] (.ok (some "RESULT")), []⟩ "id0"
      exTaskQueued 5 ["rep"] (.ok (some "RESULT")) 0 (by decide) (by decide)
      (by decide) (by decide) rfl
  obtain ⟨h1, h2⟩ := hsucc (some "RESULT") rfl
  exact ⟨info, s2, hok, hfin, by simpa using hrep, h1, h2⟩

/-- A register of fresh `CREATED` tasks is wholly submitted by a tick with no
messages: every record simply becomes `QUEUED`. -/
theorem tick_register_fresh (cfg : Config) (now : Nat) (r : List Task)
    (hfresh : ∀ t ∈ r, t.state = .created ∧ t.killReason = none) :
    (r.map (tickTask cfg now [])).filterMap Prod.fst
      = r.map (fun t => { t with state := .queued }) := by
  induction r with
  | nil => rfl
  | cons a r ih =>
      obtain ⟨hst, hk⟩ := hfresh a (List.mem_cons_self a r)
      rw [List.map_cons, List.map_cons,
        List.filterMap_cons_some (f := Prod.fst)
          (show (tickTask cfg now [] a).1 = some { a with state := .queued }
            from by rw [tickTask_created_fresh cfg now [] a hst hk rfl]),
        ih (fun t ht => hfresh t (List.mem_cons_of_mem a ht))]

/-- Filtering the `TaskExecuted` batch for one ident: with distinct idents in
the batch, the ident's own message is the only survivor. -/
theorem filter_exec_msgs (ks : List String) (pid : String → Nat) (i : String)
    (hnd : ks.Nodup) :
    (ks.map (fun j => (⟨j, .taskExecuted (pid j)⟩ : Message))).filter
        (fun m => m.taskIdent == i)
      = if i ∈ ks then [⟨i, .taskExecuted (pid i)⟩] else [] := by
  induction ks with
  | nil => simp
  | cons j ks ih =>
      simp only [List.nodup_cons] at hnd
      rw [List.map_cons, List.filter_cons]
      by_cases hij : i = j
      · subst hij
        rw [if_pos (by simp), if_pos (List.mem_cons_self i ks)]
        rw [ih hnd.2, if_neg hnd.1]
      · rw [if_neg (by simp [Ne.symm hij]), ih hnd.2]
        by_cases hks : i ∈ ks
        · rw [if_pos hks, if_pos (List.mem_cons_of_mem j hks)]
        · rw [if_neg hks, if_neg (by
            intro hmem
            rcases List.mem_cons.mp hmem with h | h
            · exact hij h
            · exact hks h)]

/-- A register of `QUEUED` tasks under a `TaskExecuted` batch: exactly the
tasks whose ident is in the batch become `EXECUTED` with their pid recorded;
the others are untouched. -/
theorem tick_register_queued (cfg : Config) (now : Nat) (ks : List String)
    (pid : String → Nat) (r : List Task) (hkn : ks.Nodup)
    (hq : ∀ t ∈ r, t.state = .queued ∧ t.killReason = none) :
    (r.map (tickTask cfg now
        (ks.map (fun j => (⟨j, .taskExecuted (pid j)⟩ : Message))))).filterMap
        Prod.fst
      = r.map (fun t =>
          if t.ident ∈ ks then
            { t with state := .executed, workerPid := some (pid t.ident),
                     lastMessageTs := some now }
          else t) := by
  induction r with
  | nil => rfl
  | cons a r ih =>
      obtain ⟨hst, hk⟩ := hq a (List.mem_cons_self a r)
      rw [List.map_cons, List.map_cons]
      by_cases ha : a.ident ∈ ks
      · rw [List.filterMap_cons_some (f := Prod.fst)
          (show (tickTask cfg now _ a).1
              = some { a with state := .executed,
                              workerPid := some (pid a.ident),
                              lastMessageTs := some now } from by
            rw [tickTask_queued_to_executed cfg now _ a hst hk (pid a.ident)
              (by rw [filter_exec_msgs ks pid a.ident hkn, if_pos ha])]),
          if_pos ha, ih (fun t ht => hq t (List.mem_cons_of_mem a ht))]
      · rw [List.filterMap_cons_some (f := Prod.fst)
          (show (tickTask cfg now _ a).1 = some a from by
            rw [tickTask_queued_idle cfg now _ a hst
              (by rw [filter_exec_msgs ks pid a.ident hkn, if_neg ha])]),
          if_neg ha, ih (fun t ht => hq t (List.mem_cons_of_mem a ht))]

/-- Counting the members of a duplicate-free sublist inside a duplicate-free
list gives the sublist's length. -/
theorem countP_mem_eq_length (l ks : List String) (hl : l.Nodup)
    (hk : ks.Nodup) (hsub : ∀ j ∈ ks, j ∈ l) :
    l.countP (fun x => decide (x ∈ ks)) = ks.length := by
  rw [List.countP_eq_length_filter]
  have hperm : (l.filter (fun x => decide (x ∈ ks))).Perm ks := by
    apply List.perm_of_nodup_nodup_toFinset_eq (hl.filter _) hk
    apply Finset.ext
    intro x
    rw [List.mem_toFinset, List.mem_toFinset, List.mem_filter]
    simp only [decide_eq_true_eq]
    exact ⟨fun h => h.2, fun h => ⟨hsub x h, h⟩⟩
  exact hperm.length_eq

/-- C8: after one tick every `CREATED` task has been submitted and is
`QUEUED` — counts `(0, n, 0, 0)` for `n` fresh tasks — and after applying
`TaskExecuted` messages for `k` distinct idents among them and ticking again
the counts are `(0, n - k, k, 0)`. -/
theorem c8_schedule_counts (s : Scheduler) (now1 now2 : Nat)
    (ks : List String) (pid : String → Nat) (alive1 alive2 : List Nat)
    (hfresh : ∀ t ∈ s.taskRegister,
      t.state = .created ∧ t.killReason = none)
    (hnd : (s.taskRegister.map Task.ident).Nodup)
    (hkn : ks.Nodup)
    (hsub : ∀ j ∈ ks, j ∈ s.taskRegister.map Task.ident) :
    countState ((perform_actions s ⟨now1, [], alive1⟩).1).taskRegister
        .created = 0 ∧
    countState ((perform_actions s ⟨now1, [], alive1⟩).1).taskRegister
        .queued = s.taskRegister.length ∧
    countState ((perform_actions s ⟨now1, [], alive1⟩).1).taskRegister
        .executed = 0 ∧
    countState ((perform_actions s ⟨now1, [], alive1⟩).1).taskRegister
        .finished = 0 ∧
    countState ((perform_actions (perform_actions s ⟨now1, [], alive1⟩).1
        ⟨now2, ks.map (fun j => ⟨j, .taskExecuted (pid j)⟩),
          alive2⟩).1).taskRegister .created = 0 ∧
    countState ((perform_actions (perform_actions s ⟨now1, [], alive1⟩).1
        ⟨now2, ks.map (fun j => ⟨j, .taskExecuted (pid j)⟩),
          alive2⟩).1).taskRegister .queued
      = s.taskRegister.length - ks.length ∧
    countState ((perform_actions (perform_actions s ⟨now1, [], alive1⟩).1
        ⟨now2, ks.map (fun j => ⟨j, .taskExecuted (pid j)⟩),
          alive2⟩).1).taskRegister .executed = ks.length ∧
    countState ((perform_actions (perform_actions s ⟨now1, [], alive1⟩).1
        ⟨now2, ks.map (fun j => ⟨j, .taskExecuted (pid j)⟩),
          alive2⟩).1).taskRegister .finished = 0 := by
  have hreg1 : ((perform_actions s ⟨now1, [], alive1⟩).1).taskRegister
      = s.taskRegister.map (fun t => { t with state := .queued }) :=
    tick_register_fresh s.config now1 s.taskRegister hfresh
  have hq1 : ∀ u ∈ s.taskRegister.map
      (fun t => ({ t with state := .queued } : Task)),
      u.state = .queued ∧ u.killReason = none := by
    intro u hu
    obtain ⟨t, ht, hut⟩ := List.mem_map.mp hu
    obtain ⟨_, hk⟩ := hfresh t ht
    rw [← hut]
    exact ⟨rfl, hk⟩
  have hid1 : (s.taskRegister.map
        (fun t => ({ t with state := .queued } : Task))).map Task.ident
      = s.taskRegister.map Task.ident := by
    rw [List.map_map]
    apply List.map_congr_left
    intro t _
    rfl
  have hreg2 : ((perform_actions (perform_actions s ⟨now1, [], alive1⟩).1
      ⟨now2, ks.map (fun j => ⟨j, .taskExecuted (pid j)⟩),
        alive2⟩).1).taskRegister
      = (s.taskRegister.map (fun t => ({ t with state := .queued } : Task))).map
          (fun t => if t.ident ∈ ks then
            { t with state := .executed, workerPid := some (pid t.ident),
                     lastMessageTs := some now2 }
          else t) := by
    show (((perform_actions s ⟨now1, [], alive1⟩).1).taskRegister.map
        (tickTask ((perform_actions s ⟨now1, [], alive1⟩).1).config now2
          (ks.map (fun j => ⟨j, .taskExecuted (pid j)⟩)))).filterMap Prod.fst
      = _
    rw [hreg1]
    exact tick_register_queued
      ((perform_actions s ⟨now1, [], alive1⟩).1).config now2 ks pid
      (s.taskRegister.map (fun t => { t with state := .queued })) hkn hq1
  have hcount1 : ∀ st : TaskState,
      countState (s.taskRegister.map
        (fun t => ({ t with state := .queued } : Task))) st
      = if st = .queued then s.taskRegister.length else 0 := by
    intro st
    unfold countState
    rw [← List.countP_eq_length_filter, List.countP_map]
    by_cases hst : st = .queued
    · subst hst
      rw [if_pos rfl]
      rw [List.countP_eq_length.mpr (by intro a _; simp [Function.comp])]
    · rw [if_neg hst]
      rw [List.countP_eq_zero.mpr ?_]
      intro a _
      simp only [Function.comp_apply]
      simp [beq_iff_eq, Ne.symm hst]
  refine ⟨?_, ?_, ?_, ?_, ?_, ?_, ?_, ?_⟩
  · rw [hreg1, hcount1 .created, if_neg (by simp)]
  · rw [hreg1, hcount1 .queued, if_pos rfl]
  · rw [hreg1, hcount1 .executed, if_neg (by simp)]
  · rw [hreg1, hcount1 .finished, if_neg (by simp)]
  · rw [hreg2]
    unfold countState
    rw [← List.countP_eq_length_filter, List.countP_map]
    rw [List.countP_eq_zero.mpr ?_]
    intro a ha2
    obtain ⟨hast, _⟩ := hq1 a ha2
    simp only [Function.comp_apply]
    by_cases ha : a.ident ∈ ks
    · simp [ha]
    · simp [ha, hast]
  · rw [hreg2]
    unfold countState
    rw [← List.countP_eq_length_filter, List.countP_map]
    have hsplit := List.length_eq_countP_add_countP
      (p := fun u : Task => decide (u.ident ∈ ks))
      (s.taskRegister.map (fun t => ({ t with state := .queued } : Task)))
    have hc1 : (s.taskRegister.map
          (fun t => ({ t with state := .queued } : Task))).countP
        (fun u => decide (u.ident ∈ ks)) = ks.length := by
      have hmapident : (s.taskRegister.map
            (fun t => ({ t with state := .queued } : Task))).countP
          (fun u => decide (u.ident ∈ ks))
        = ((s.taskRegister.map
            (fun t => ({ t with state := .queued } : Task))).map
              Task.ident).countP (fun x => decide (x ∈ ks)) := by
        rw [List.countP_map, List.countP_map, List.countP_map]
        rfl
      rw [hmapident, hid1]
      exact countP_mem_eq_length _ ks hnd hkn hsub
    have hcq : (s.taskRegister.map
          (fun t => ({ t with state := .queued } : Task))).countP
        ((fun u : Task => u.state == TaskState.queued) ∘
          (fun t => if t.ident ∈ ks then
            { t with state := .executed, workerPid := some (pid t.ident),
                     lastMessageTs := some now2 }
          else t))
      = (s.taskRegister.map
          (fun t => ({ t with state := .queued } : Task))).countP
        (fun u => ¬decide (u.ident ∈ ks)) := by
      apply List.countP_congr
      intro u hu
      obtain ⟨hust, _⟩ := hq1 u hu
      simp only [Function.comp_apply]
      by_cases ha : u.ident ∈ ks
      · simp [ha]
      · simp [ha, hust]
    rw [hcq]
    have := hsplit
    rw [hc1] at this
    rw [List.length_map] at this
    omega
  · rw [hreg2]
    unfold countState
    rw [← List.countP_eq_length_filter, List.countP_map]
    have hce : (s.taskRegister.map
          (fun t => ({ t with state := .queued } : Task))).countP
        ((fun u : Task => u.state == TaskState.executed) ∘
          (fun t => if t.ident ∈ ks then
            { t with state := .executed, workerPid := some (pid t.ident),
                     lastMessageTs := some now2 }
          else t))
      = (s.taskRegister.map
          (fun t => ({ t with state := .queued } : Task))).countP
        (fun u => decide (u.ident ∈ ks)) := by
      apply List.countP_congr
      intro u hu
      obtain ⟨hust, _⟩ := hq1 u hu
      simp only [Function.comp_apply]
      by_cases ha : u.ident ∈ ks
      · simp [ha]
      · simp [ha, hust]
    rw [hce]
    have hmapident : (s.taskRegister.map
          (fun t => ({ t with state := .queued } : Task))).countP
        (fun u => decide (u.ident ∈ ks))
      = ((s.taskRegister.map
          (fun t => ({ t with state := .queued } : Task))).map
            Task.ident).countP (fun x => decide (x ∈ ks)) := by
      rw [List.countP_map, List.countP_map, List.countP_map]
      rfl
    rw [hmapident, hid1]
    exact countP_mem_eq_length _ ks hnd hkn hsub
  · rw [hreg2]
    unfold countState
    rw [← List.countP_eq_length_filter, List.countP_map]
    rw [List.countP_eq_zero.mpr ?_]
    intro a ha2
    obtain ⟨hast, _⟩ := hq1 a ha2
    simp only [Function.comp_apply]
    by_cases ha : a.ident ∈ ks
    · simp [ha]
    · simp [ha, hast]

/-- C8 witness: two fresh tasks, then `TaskExecuted` for one of them — counts
`(0, 2, 0, 0)` then `(0, 1, 1, 0)`. -/
theorem c8_schedule_counts_witness :
    countState ((perform_actions
        (new_task (new_task (newScheduler exCfg) "id0" "cmd" 0) "id1" "cmd" 0)
        ⟨0, [], []⟩).1).taskRegister .queued = 2 ∧
    countState ((perform_actions (perform_actions
        (new_task (new_task (newScheduler exCfg) "id0" "cmd" 0) "id1" "cmd" 0)
        ⟨0, [], []⟩).1
        ⟨0, ["id0"].map (fun j => ⟨j, .taskExecuted ((fun _ => 5) j)⟩),
          []⟩).1).taskRegister .executed = 1 := by
  have h := c8_schedule_counts
    (new_task (new_task (newScheduler exCfg) "id0" "cmd" 0) "id1" "cmd" 0)
    0 0 ["id0"] (fun _ => 5) [] [] (by decide) (by decide) (by decide)
    (by decide)
  exact ⟨h.2.1, h.2.2.2.2.2.2.1⟩

/-- Unfolding equation: the temporary workers spawned by a tick. -/
theorem perform_actions_spawned (s : Scheduler) (inp : TickInput) :
    (perform_actions s inp).2.spawnedTmpWorkers
      = if (deadlockDetected s.config inp.now
            (if inp.messages.isEmpty then s.lastMessageAt else inp.now)
            ((s.taskRegister.map
              (tickTask s.config inp.now inp.messages)).filterMap Prod.fst) &&
          decide (s.config.workerCount +
              (s.tmpWorkers.filter
                (fun w => inp.aliveTmpWorkers.contains w.wid)).length
            < s.config.maxWorkerCount)) = true
        then [⟨s.nextTmpWorkerId, 1, true⟩] else [] := rfl

/-- Unfolding equation: the temporary workers kept after a tick. -/
theorem perform_actions_tmpWorkers (s : Scheduler) (inp : TickInput) :
    (perform_actions s inp).1.tmpWorkers
      = s.tmpWorkers.filter (fun w => inp.aliveTmpWorkers.contains w.wid) ++
        (perform_actions s inp).2.spawnedTmpWorkers := rfl

/-- The config is never changed by a tick. -/
theorem perform_actions_config (s : Scheduler) (inp : TickInput) :
    (perform_actions s inp).1.config = s.config := rfl

/-- C7: deadlock mitigation.  (1) A tick spawns at most one temporary worker,
and any spawned worker has an initial-task counter of 1 and is bound to the
pool's inbound/outbound queues, joining the kept handles; (2) a temporary
worker is spawned exactly when the deadlock heuristic fires (on the post-tick
register and progress clock) and the total worker count — persistent pool
plus live temporary handles — is below the cap, so at the cap nothing is
spawned; (3) handles of temporary workers whose process is no longer alive
are closed and forgotten: after the tick every tracked handle is alive or
was just spawned; (4) the total worker count never exceeds the cap over any
run of ticks. -/
theorem c7_deadlock_mitigation :
    (∀ (s : Scheduler) (inp : TickInput),
      (perform_actions s inp).2.spawnedTmpWorkers = [] ∨
      ∃ w, (perform_actions s inp).2.spawnedTmpWorkers = [w] ∧
        w.initialTaskCounter = 1 ∧ w.boundToPoolQueues = true ∧
        (perform_actions s inp).1.tmpWorkers
          = s.tmpWorkers.filter
              (fun w2 => inp.aliveTmpWorkers.contains w2.wid) ++ [w]) ∧
    (∀ (s : Scheduler) (inp : TickInput),
      ¬(perform_actions s inp).2.spawnedTmpWorkers = [] ↔
        (deadlockDetected s.config inp.now
            (perform_actions s inp).1.lastMessageAt
            (perform_actions s inp).1.taskRegister = true ∧
          s.config.workerCount +
              (s.tmpWorkers.filter
                (fun w2 => inp.aliveTmpWorkers.contains w2.wid)).length
            < s.config.maxWorkerCount)) ∧
    (∀ (s : Scheduler) (inp : TickInput),
      (perform_actions s inp).2.closedTmpWorkers
        = s.tmpWorkers.filter
            (fun w2 => !inp.aliveTmpWorkers.contains w2.wid) ∧
      ∀ w ∈ (perform_actions s inp).1.tmpWorkers,
        inp.aliveTmpWorkers.contains w.wid = true ∨
        w ∈ (perform_actions s inp).2.spawnedTmpWorkers) ∧
    (∀ (s : Scheduler) (inps : List TickInput),
      s.config.workerCount + s.tmpWorkers.length ≤ s.config.maxWorkerCount →
      s.config.workerCount + (runTicks s inps).1.tmpWorkers.length
        ≤ s.config.maxWorkerCount) := by
  have hstep : ∀ (s : Scheduler) (inp : TickInput),
      s.config.workerCount + s.tmpWorkers.length
        ≤ s.config.maxWorkerCount →
      s.config.workerCount + (perform_actions s inp).1.tmpWorkers.length
        ≤ s.config.maxWorkerCount := by
    intro s inp h
    rw [perform_actions_tmpWorkers, perform_actions_spawned]
    have hkept : (s.tmpWorkers.filter
        (fun w => inp.aliveTmpWorkers.contains w.wid)).length
        ≤ s.tmpWorkers.length := List.length_filter_le _ _
    set lm := if inp.messages.isEmpty then s.lastMessageAt else inp.now
      with hlm
    split
    · rename_i hcond
      rw [Bool.and_eq_true] at hcond
      have hlt := of_decide_eq_true hcond.2
      rw [List.length_append]
      simp only [List.length_singleton]
      omega
    · rw [List.length_append]
      simp only [List.length_nil]
      omega
  refine ⟨?_, ?_, ?_, ?_⟩
  · intro s inp
    rw [perform_actions_tmpWorkers, perform_actions_spawned]
    set lm := if inp.messages.isEmpty then s.lastMessageAt else inp.now
      with hlm
    split
    · exact Or.inr ⟨⟨s.nextTmpWorkerId, 1, true⟩, rfl, rfl, rfl, rfl⟩
    · exact Or.inl rfl
  · intro s inp
    rw [perform_actions_spawned]
    set lm := if inp.messages.isEmpty then s.lastMessageAt else inp.now
      with hlm
    constructor
    · intro hne
      split at hne
      · rename_i hcond
        rw [Bool.and_eq_true] at hcond
        exact ⟨hcond.1, of_decide_eq_true hcond.2⟩
      · exact absurd rfl hne
    · intro ⟨h1, h2⟩
      split
      · simp
      · rename_i hcond
        rw [Bool.and_eq_true] at hcond
        exact absurd ⟨h1, decide_eq_true h2⟩ hcond
  · intro s inp
    refine ⟨rfl, ?_⟩
    intro w hw
    rw [perform_actions_tmpWorkers] at hw
    rcases List.mem_append.mp hw with hw | hw
    · exact Or.inl (List.mem_filter.mp hw).2
    · exact Or.inr hw
  · intro s inps
    induction inps generalizing s with
    | nil =>
        intro h
        simpa [runTicks] using h
    | cons inp rest ih =>
        intro h
        have h1 := hstep s inp h
        have hcfg : (perform_actions s inp).1.config = s.config := rfl
        have := ih (perform_actions s inp).1 (by rw [hcfg]; exact h1)
        rw [hcfg] at this
        simpa [runTicks] using this

/-- C7 witness: on the deadlock scenario (one executed, one queued, threshold
0, below the cap) the tick spawns a temporary worker; and the cap is
preserved over a run from a clean state. -/
theorem c7_deadlock_mitigation_witness :
    ¬(perform_actions dlSched
        ⟨5, [⟨"id0", .taskExecuted 0⟩], []⟩).2.spawnedTmpWorkers = [] ∧
    dlSched.config.workerCount +
        (runTicks dlSched [⟨5, [⟨"id0", .taskExecuted 0⟩], []⟩,
          ⟨5, [], [0]⟩]).1.tmpWorkers.length
      ≤ dlSched.config.maxWorkerCount :=
  ⟨(c7_deadlock_mitigation.2.1 dlSched
      ⟨5, [⟨"id0", .taskExecuted 0⟩], []⟩).mpr ⟨by decide, by decide⟩,
   c7_deadlock_mitigation.2.2.2 dlSched
     [⟨5, [⟨"id0", .taskExecuted 0⟩], []⟩, ⟨5, [], [0]⟩] (by decide)⟩

/-- Looking an ident up may ignore records that could never match. -/
theorem find?_eq_find?_filter (r : List Task) (p q : Task → Bool)
    (h : ∀ u, q u = false → p u = false) :
    r.find? p = (r.filter q).find? p := by
  induction r with
  | nil => rfl
  | cons a r ih =>
      by_cases hq : q a = true
      · rw [List.filter_cons_of_pos hq]
        by_cases hp : p a = true
        · rw [List.find?_cons_of_pos _ hp, List.find?_cons_of_pos _ hp]
        · rw [List.find?_cons_of_neg _ hp, List.find?_cons_of_neg _ hp]
          exact ih
      · rw [List.filter_cons_of_neg hq]
        rw [List.find?_cons_of_neg _ (by
          rw [h a (Bool.not_eq_true _ ▸ hq)]
          simp)]
        exact ih

/-- A tick commutes with hiding the records of one ident: the rest of the
register after a tick only depends on the rest of the register before. -/
theorem filter_tick_comm (cfg : Config) (now : Nat) (msgs : List Message)
    (i : String) (r : List Task) :
    ((r.map (tickTask cfg now msgs)).filterMap Prod.fst).filter
        (fun u => !(u.ident == i))
      = (((r.filter (fun u => !(u.ident == i))).map
          (tickTask cfg now msgs)).filterMap Prod.fst) := by
  induction r with
  | nil => rfl
  | cons a r ih =>
      rw [List.map_cons]
      by_cases hai : (a.ident == i) = true
      · have hfa : ((fun u : Task => !(u.ident == i)) a) = false := by
          simp [hai]
        rw [List.filter_cons_of_neg (by simp [hai])]
        cases h1 : (tickTask cfg now msgs a).1 with
        | some t' =>
            rw [List.filterMap_cons_some (f := Prod.fst) h1]
            rw [List.filter_cons_of_neg (by
              simp [tickTask_ident cfg now msgs a t' h1, hai])]
            exact ih
        | none =>
            rw [List.filterMap_cons_none (f := Prod.fst) h1]
            exact ih
      · rw [List.filter_cons_of_pos (by simp [hai]), List.map_cons]
        cases h1 : (tickTask cfg now msgs a).1 with
        | some t' =>
            rw [List.filterMap_cons_some (f := Prod.fst) h1,
              List.filterMap_cons_some (f := Prod.fst) h1]
            rw [List.filter_cons_of_pos (by
              simp [tickTask_ident cfg now msgs a t' h1, hai])]
            rw [ih]
        | none =>
            rw [List.filterMap_cons_none (f := Prod.fst) h1,
              List.filterMap_cons_none (f := Prod.fst) h1]
            exact ih

/-- The signals a tick emits for an ident other than `i` only depend on the
register with `i`'s records hidden. -/
theorem signalsFor_tick_filter (cfg : Config) (now : Nat)
    (msgs : List Message) (i i2 : String) (h : ¬i2 = i) (r : List Task) :
    signalsFor i2 (((r.map (tickTask cfg now msgs)).map Prod.snd).flatten)
      = signalsFor i2
          ((((r.filter (fun u => !(u.ident == i))).map
            (tickTask cfg now msgs)).map Prod.snd).flatten) := by
  induction r with
  | nil => rfl
  | cons a r ih =>
      rw [List.map_cons, List.map_cons, List.flatten_cons]
      by_cases hai : (a.ident == i) = true
      · have hnone : signalsFor i2 (tickTask cfg now msgs a).2 = [] := by
          rw [signalsFor, List.filter_eq_nil_iff]
          intro sg hsg
          rw [tickTask_signals_ident cfg now msgs a sg hsg,
            beq_iff_eq.mp hai]
          simp [Ne.symm h]
        rw [List.filter_cons_of_neg (by simp [hai])]
        rw [signalsFor, List.filter_append]
        rw [show (tickTask cfg now msgs a).2.filter
            (fun sg => sg.taskIdent == i2) = [] from hnone]
        rw [List.nil_append]
        exact ih
      · rw [List.filter_cons_of_pos (by simp [hai]), List.map_cons,
          List.map_cons, List.flatten_cons]
        rw [signalsFor, List.filter_append, signalsFor, List.filter_append]
        rw [show ((tickTask cfg now msgs a).2.filter
              (fun sg => sg.taskIdent == i2) : List SentSignal)
            = (tickTask cfg now msgs a).2.filter
              (fun sg => sg.taskIdent == i2) from rfl]
        exact congrArg _ ih

/-- Updating the record at one ident does not change the register with that
ident's records hidden. -/
theorem filter_map_update (r : List Task) (i : String) (f : Task → Task)
    (hid : ∀ u, (f u).ident = u.ident) :
    (r.map (fun u => if u.ident == i then f u else u)).filter
        (fun u => !(u.ident == i))
      = r.filter (fun u => !(u.ident == i)) := by
  induction r with
  | nil => rfl
  | cons a r ih =>
      rw [List.map_cons]
      by_cases hai : (a.ident == i) = true
      · rw [if_pos hai]
        rw [List.filter_cons_of_neg (by simp [hid a, hai]),
          List.filter_cons_of_neg (by simp [hai])]
        exact ih
      · rw [if_neg hai]
        rw [List.filter_cons_of_pos (by simp [hai]),
          List.filter_cons_of_pos (by simp [hai])]
        rw [ih]

/-- One tick preserves agreement of two schedulers outside one ident. -/
theorem tick_frame (i : String) (s1 s2 : Scheduler) (inp : TickInput)
    (hcfg : s1.config = s2.config)
    (hreg : s1.taskRegister.filter (fun u => !(u.ident == i))
          = s2.taskRegister.filter (fun u => !(u.ident == i))) :
    (perform_actions s1 inp).1.config = (perform_actions s2 inp).1.config ∧
    (perform_actions s1 inp).1.taskRegister.filter
        (fun u => !(u.ident == i))
      = (perform_actions s2 inp).1.taskRegister.filter
          (fun u => !(u.ident == i)) ∧
    ∀ i2, ¬i2 = i →
      signalsFor i2 (perform_actions s1 inp).2.signals
        = signalsFor i2 (perform_actions s2 inp).2.signals := by
  refine ⟨by rw [perform_actions_config, perform_actions_config, hcfg],
    ?_, ?_⟩
  · show (((s1.taskRegister.map
        (tickTask s1.config inp.now inp.messages)).filterMap
          Prod.fst).filter (fun u => !(u.ident == i)))
      = (((s2.taskRegister.map
        (tickTask s2.config inp.now inp.messages)).filterMap
          Prod.fst).filter (fun u => !(u.ident == i)))
    rw [filter_tick_comm, filter_tick_comm, hreg, hcfg]
  · intro i2 hne
    show signalsFor i2 (((s1.taskRegister.map
          (tickTask s1.config inp.now inp.messages)).map Prod.snd).flatten)
      = signalsFor i2 (((s2.taskRegister.map
          (tickTask s2.config inp.now inp.messages)).map Prod.snd).flatten)
    rw [signalsFor_tick_filter s1.config inp.now inp.messages i i2 hne,
      signalsFor_tick_filter s2.config inp.now inp.messages i i2 hne,
      hreg, hcfg]

/-- A run of ticks preserves agreement of two schedulers outside one ident,
tick output by tick output. -/
theorem runTicks_frame (i : String) (s1 s2 : Scheduler)
    (inps : List TickInput) (hcfg : s1.config = s2.config)
    (hreg : s1.taskRegister.filter (fun u => !(u.ident == i))
          = s2.taskRegister.filter (fun u => !(u.ident == i))) :
    (runTicks s1 inps).1.taskRegister.filter (fun u => !(u.ident == i))
      = (runTicks s2 inps).1.taskRegister.filter
          (fun u => !(u.ident == i)) ∧
    ∀ i2, ¬i2 = i →
      (runTicks s1 inps).2.map (fun out => signalsFor i2 out.signals)
        = (runTicks s2 inps).2.map (fun out => signalsFor i2 out.signals) := by
  induction inps generalizing s1 s2 with
  | nil => exact ⟨hreg, fun i2 _ => rfl⟩
  | cons inp rest ih =>
      obtain ⟨h1, h2, h3⟩ := tick_frame i s1 s2 inp hcfg hreg
      obtain ⟨ih1, ih2⟩ := ih (perform_actions s1 inp).1
        (perform_actions s2 inp).1 h1 h2
      refine ⟨by simpa [runTicks] using ih1, ?_⟩
      intro i2 hne
      show signalsFor i2 (perform_actions s1 inp).2.signals ::
          (runTicks (perform_actions s1 inp).1 rest).2.map
            (fun out => signalsFor i2 out.signals)
        = signalsFor i2 (perform_actions s2 inp).2.signals ::
          (runTicks (perform_actions s2 inp).1 rest).2.map
            (fun out => signalsFor i2 out.signals)
      rw [h3 i2 hne, ih2 i2 hne]

/-- C10: `kill_task` on one ident is frame-preserving for every other task:
after the kill and any run of ticks, every other ident's record (hence its
state, finish type and kill reason) is exactly what it would have been
without the kill, and the signals sent on every other ident's behalf in each
tick are exactly those that would have been sent without the kill. -/
theorem c10_kill_frame (s : Scheduler) (i : String) (s2 : Scheduler)
    (inps : List TickInput) (hk : kill_task s i = .ok s2) :
    ∀ i2, ¬i2 = i →
      findTask (runTicks s2 inps).1 i2 = findTask (runTicks s inps).1 i2 ∧
      (runTicks s2 inps).2.map (fun out => signalsFor i2 out.signals)
        = (runTicks s inps).2.map (fun out => signalsFor i2 out.signals) := by
  obtain ⟨t, hf, hs2⟩ := kill_task_ok_inv s i s2 hk
  have hreg : s2.taskRegister.filter (fun u => !(u.ident == i))
      = s.taskRegister.filter (fun u => !(u.ident == i)) := by
    rw [hs2]
    exact filter_map_update s.taskRegister i
      (fun u => { u with killReason := some .user }) (fun u => rfl)
  have hcfg : s2.config = s.config := by rw [hs2]
  obtain ⟨hfin, hsigs⟩ := runTicks_frame i s2 s inps hcfg hreg
  intro i2 hne
  refine ⟨?_, hsigs i2 hne⟩
  have hirr : ∀ u : Task, ((fun u : Task => !(u.ident == i)) u) = false →
      ((fun u : Task => u.ident == i2) u) = false := by
    intro u hu
    have hu' : (!(u.ident == i)) = false := hu
    have h1 : (u.ident == i) = true := by
      cases hbi : (u.ident == i)
      · rw [hbi] at hu'
        simp at hu'
      · rfl
    have h2 : u.ident = i := beq_iff_eq.mp h1
    show (u.ident == i2) = false
    rw [h2]
    exact beq_eq_false_iff_ne.mpr (fun hcon => hne hcon.symm)
  show (runTicks s2 inps).1.taskRegister.find? (fun u => u.ident == i2)
    = (runTicks s inps).1.taskRegister.find? (fun u => u.ident == i2)
  rw [find?_eq_find?_filter (runTicks s2 inps).1.taskRegister
      (fun u => u.ident == i2) (fun u => !(u.ident == i)) hirr,
    find?_eq_find?_filter (runTicks s inps).1.taskRegister
      (fun u => u.ident == i2) (fun u => !(u.ident == i)) hirr,
    hfin]

/-- C10 witness: killing "id0" in a two-task scheduler leaves "id1"'s record
and signals after a tick exactly as without the kill. -/
theorem c10_kill_frame_witness :
    ∃ s2, kill_task dlSched "id0" = .ok s2 ∧
      (findTask (runTicks s2 [⟨0, [], []⟩]).1 "id1"
          = findTask (runTicks dlSched [⟨0, [], []⟩]).1 "id1" ∧
        (runTicks s2 [⟨0, [], []⟩]).2.map
            (fun out => signalsFor "id1" out.signals)
          = (runTicks dlSched [⟨0, [], []⟩]).2.map
              (fun out => signalsFor "id1" out.signals)) := by
  refine ⟨_, rfl, ?_⟩
  exact c10_kill_frame dlSched "id0" _ [⟨0, [], []⟩] rfl "id1" (by decide)

end Claims

end AsyncTasks
